import Mathlib

set_option maxRecDepth 10000

/-!
Verification of the two core text-processing components of the recipe
application: the recipe-title extractor (`extract_recipe_name` in
`utils.py`), the Markdown-subset card renderer (`create_recipe_card_html`
in `utils.py`), and the display-name cleaner (`_clean_display_name` in
`saved_recipes.py`).

Python strings are modelled as `List Char`; each Python string operation
used by the source is given an explicit executable model.
-/

/-- View a Lean string literal as the character-list representation used
throughout this development for Python strings. -/
def pyStr (s : String) : List Char := s.data

/-- Python whitespace for `str.strip` / `\s` (ASCII subset; the source is
only ever exercised on ASCII whitespace). -/
def isPySpace (c : Char) : Bool :=
  c = ' ' || c = '\t' || c = '\n' || c = '\r' || c = '\x0b' || c = '\x0c'

/-- Strip characters satisfying `p` from the right end. -/
def stripRight (p : Char → Bool) (l : List Char) : List Char :=
  (l.reverse.dropWhile p).reverse

/-- Python `str.strip()` (no argument: whitespace both ends). -/
def pyStrip (l : List Char) : List Char :=
  stripRight isPySpace (l.dropWhile isPySpace)

/-- Python `str.split('\n')`. -/
def splitLines : List Char → List (List Char)
  | [] => [[]]
  | c :: rest =>
    if c = '\n' then [] :: splitLines rest
    else
      match splitLines rest with
      | [] => [[c]]
      | l :: ls => (c :: l) :: ls

/-- Python `str.lower()` (ASCII case folding). -/
def pyLower (l : List Char) : List Char := l.map Char.toLower

/-- Python substring test `p in s`. -/
def isSubstr (p : List Char) : List Char → Bool
  | [] => p.isEmpty
  | c :: rest => p.isPrefixOf (c :: rest) || isSubstr p rest

/-! ## Title extractor (`extract_recipe_name`, `src/utils.py`) -/

/-- Section keywords excluded by the heading pass. -/
def section_words1 : List (List Char) :=
  [pyStr "ingredients", pyStr "instructions", pyStr "directions", pyStr "steps",
   pyStr "tips", pyStr "notes", pyStr "shopping", pyStr "servings"]

/-- Section keywords excluded by the bold-standalone pass. -/
def section_words2 : List (List Char) :=
  [pyStr "ingredients", pyStr "instructions", pyStr "directions", pyStr "steps",
   pyStr "tips", pyStr "notes", pyStr "servings", pyStr "prep time",
   pyStr "cook time", pyStr "total time", pyStr "shopping"]

/-- `any(name.lower().startswith(w) for w in ws)`. -/
def startsWithSectionWord (ws : List (List Char)) (name : List Char) : Bool :=
  ws.any (fun w => w.isPrefixOf (pyLower name))

/-- Heading pass (pass 1): first `#`-prefixed line whose `#`-stripped,
trimmed text is ≥ 3 characters and does not start with a section keyword,
truncated to 80 characters. -/
def pass1 : List (List Char) → Option (List Char)
  | [] => none
  | line :: rest =>
    let stripped := pyStrip line
    if stripped.head? = some '#' then
      let name := pyStrip (stripped.dropWhile (fun c => c == '#'))
      if name ≠ [] ∧ 3 ≤ name.length ∧ startsWithSectionWord section_words1 name = false then
        some (name.take 80)
      else pass1 rest
    else pass1 rest

/-- `re.match(r'^\*\*(.+?)\*\*$', s)` on a newline-free line.  Because the
pattern is anchored at both ends, it matches exactly when the line is
`**` ++ mid ++ `**` with `mid` nonempty, and the lazy group is forced to be
`s[2:-2]`. -/
def boldStandalone (s : List Char) : Option (List Char) :=
  if 5 ≤ s.length ∧ (pyStr "**").isPrefixOf s ∧ (pyStr "**").isSuffixOf s then
    some ((s.drop 2).dropLast.dropLast)
  else none

/-- Bold-standalone pass (pass 2). -/
def pass2 : List (List Char) → Option (List Char)
  | [] => none
  | line :: rest =>
    let stripped := pyStrip line
    match boldStandalone stripped with
    | some g =>
      let name := pyStrip g
      if 3 ≤ name.length ∧ startsWithSectionWord section_words2 name = false then
        some (name.take 80)
      else pass2 rest
    | none => pass2 rest

/-- Intro/filler substrings skipped by pass 3. -/
def intro_patterns : List (List Char) :=
  [pyStr "here", pyStr "suggest", pyStr "perfect", pyStr "delicious",
   pyStr "enjoy", pyStr "this is", pyStr "try this", pyStr "sure!",
   pyStr "absolutely", pyStr "great choice"]

/-- Metadata substrings skipped by pass 3. -/
def metadata_patterns : List (List Char) :=
  [pyStr "servings:", pyStr "prep time:", pyStr "cook time:",
   pyStr "total time:", pyStr "ingredients:", pyStr "instructions:",
   pyStr "directions:", pyStr "---"]

/-- `re.match(r'^\d+[\.\)]\s', s)`: one or more digits, then `.` or `)`,
then a whitespace character. -/
def numberedStep (s : List Char) : Bool :=
  let ds := s.takeWhile Char.isDigit
  (!ds.isEmpty) &&
    (match s.drop ds.length with
     | c :: d :: _ => (c = '.' || c = ')') && isPySpace d
     | _ => false)

/-- `stripped.replace('#', '').replace('*', '').strip()`. -/
def cleanLine (stripped : List Char) : List Char :=
  pyStrip ((stripped.filter (fun c => c != '#')).filter (fun c => c != '*'))

/-- Heuristic first-line pass (pass 3), mirroring the source loop with its
`continue` branches. -/
def pass3 : List (List Char) → Option (List Char)
  | [] => none
  | line :: rest =>
    let stripped := pyStrip line
    if stripped.isEmpty then pass3 rest
    else
      let lower := pyLower stripped
      if intro_patterns.any (fun p => isSubstr p lower) then pass3 rest
      else if metadata_patterns.any (fun p => isSubstr p lower) then pass3 rest
      else if stripped.head? = some '-' ∨ stripped.head? = some '•' then pass3 rest
      else if numberedStep stripped then pass3 rest
      else
        let clean := cleanLine stripped
        if 3 ≤ clean.length ∧ clean.length ≤ 80 then some clean else pass3 rest

/-- Fallback pass: first line whose `#`/`*`-stripped, trimmed text is
nonempty and longer than 3 characters, truncated to 80 characters. -/
def fallbackPass : List (List Char) → Option (List Char)
  | [] => none
  | line :: rest =>
    let clean := cleanLine (pyStrip line)
    if clean ≠ [] ∧ 3 < clean.length then some (clean.take 80)
    else fallbackPass rest

/-- `extract_recipe_name` from `src/utils.py`: four sequential passes over
the newline-split input, with the literal fallback string. -/
def extract_recipe_name (recipe_content : List Char) : List Char :=
  match pass1 (splitLines recipe_content) with
  | some name => name
  | none =>
    match pass2 (splitLines recipe_content) with
    | some name => name
    | none =>
      match pass3 (splitLines recipe_content) with
      | some name => name
      | none =>
        match fallbackPass (splitLines recipe_content) with
        | some name => name
        | none => pyStr "Untitled Recipe"

/-! ## Markdown card renderer (`create_recipe_card_html`, `src/utils.py`) -/

/-- Split a character list at the first occurrence of `**`:
`findStars l = some (p, q)` when `l = p ++ '*' :: '*' :: q` with the
occurrence leftmost. -/
def findStars : List Char → Option (List Char × List Char)
  | [] => none
  | a :: rest =>
    match rest with
    | [] => none
    | b :: r2 =>
      if a = '*' ∧ b = '*' then some ([], r2)
      else (findStars (b :: r2)).map (fun pq => (a :: pq.1, pq.2))

/-- After an opening `**`, find the lazy closing `**`: the shortest nonempty
`mid` with `rest = mid ++ '*' :: '*' :: q`. -/
def splitClose (rest : List Char) : Option (List Char × List Char) :=
  match rest with
  | [] => none
  | a :: tail => (findStars tail).map (fun pq => (a :: pq.1, pq.2))

/-- Fuelled worker for `re.sub(r'\*\*(.+?)\*\*', r'<strong>\1</strong>', s)`
on a newline-free line: scan left to right; at each `**` take the lazy
(nearest) closing `**`; if none exists, advance one character.  Each
recursive call strictly shrinks the list, so `fuel = length` suffices. -/
def boldSubF : Nat → List Char → List Char
  | 0, l => l
  | _ + 1, [] => []
  | fuel + 1, [c] => c :: boldSubF fuel []
  | fuel + 1, a :: b :: rest =>
    if a = '*' ∧ b = '*' then
      match splitClose rest with
      | some (mid, rest') =>
        pyStr "<strong>" ++ mid ++ pyStr "</strong>" ++ boldSubF fuel rest'
      | none => '*' :: boldSubF fuel ('*' :: rest)
    else a :: boldSubF fuel (b :: rest)

/-- Bold-span substitution applied to list items and paragraphs. -/
def boldSub (l : List Char) : List Char := boldSubF l.length l

/-- `re.match(r'^\d+\.\s', s)`: digits, a dot, then a whitespace character. -/
def numberedItem (s : List Char) : Bool :=
  let ds := s.takeWhile Char.isDigit
  (!ds.isEmpty) &&
    (match s.drop ds.length with
     | c :: d :: _ => c = '.' && isPySpace d
     | _ => false)

/-- `re.sub(r'^\d+\.\s+', '', s)`: strip the leading numbering (digits, dot,
and the greedy whitespace run) when present. -/
def stripNumbering (s : List Char) : List Char :=
  if numberedItem s then
    ((s.dropWhile Char.isDigit).drop 1).dropWhile isPySpace
  else s

def ulOpenTag : List Char := pyStr "<ul>"

def ulCloseTag : List Char := pyStr "</ul>"

def olOpenTag : List Char := pyStr "<ol>"

def olCloseTag : List Char := pyStr "</ol>"

/-- `if in_unordered_list: html_lines.append('</ul>')`. -/
def closeUl (inUl : Bool) : List (List Char) := if inUl then [ulCloseTag] else []

/-- `if in_ordered_list: html_lines.append('</ol>')`. -/
def closeOl (inOl : Bool) : List (List Char) := if inOl then [olCloseTag] else []

/-- Close any open list — the source closes `</ul>` before `</ol>`. -/
def closeBoth (inUl inOl : Bool) : List (List Char) := closeUl inUl ++ closeOl inOl

/-- `if not in_unordered_list: html_lines.append('<ul>')`. -/
def openUl (inUl : Bool) : List (List Char) := if inUl then [] else [ulOpenTag]

/-- `if not in_ordered_list: html_lines.append('<ol>')`. -/
def openOl (inOl : Bool) : List (List Char) := if inOl then [] else [olOpenTag]

/-- The line-processing loop of `create_recipe_card_html`: produces the
`html_lines` list, threading the `in_unordered_list` / `in_ordered_list`
flags, and closing any still-open list at end of input. -/
def renderLines : List (List Char) → Bool → Bool → List (List Char)
  | [], inUl, inOl => closeBoth inUl inOl
  | line :: ls, inUl, inOl =>
    let stripped := pyStrip line
    if stripped.isEmpty then
      closeBoth inUl inOl ++ renderLines ls false false
    else if (pyStr "# ").isPrefixOf stripped then
      closeBoth inUl inOl
        ++ ([pyStr "<h1>" ++ stripped.drop 2 ++ pyStr "</h1>"] ++ renderLines ls false false)
    else if (pyStr "## ").isPrefixOf stripped then
      closeBoth inUl inOl
        ++ ([pyStr "<h2>" ++ stripped.drop 3 ++ pyStr "</h2>"] ++ renderLines ls false false)
    else if stripped = pyStr "---" then
      closeBoth inUl inOl ++ ([pyStr "<hr>"] ++ renderLines ls false false)
    else if (pyStr "- ").isPrefixOf stripped then
      closeOl inOl
        ++ (openUl inUl
          ++ ([pyStr "<li>" ++ boldSub (stripped.drop 2) ++ pyStr "</li>"]
            ++ renderLines ls true false))
    else if numberedItem stripped then
      closeUl inUl
        ++ (openOl inOl
          ++ ([pyStr "<li>" ++ boldSub (stripNumbering stripped) ++ pyStr "</li>"]
            ++ renderLines ls false true))
    else
      closeBoth inUl inOl
        ++ ([pyStr "<p>" ++ boldSub stripped ++ pyStr "</p>"] ++ renderLines ls false false)

/-- The body `html_lines` of a full render, from the initial (no open list)
state. -/
def bodyLines (md : List Char) : List (List Char) :=
  renderLines (splitLines md) false false

/-- The print-trigger button element, as it appears twice in the template. -/
def buttonMarkup : List Char := pyStr "<button class=\"print-button\" onclick=\"window.print()\">"

def htmlPreA : List Char := pyStr "\n    <!DOCTYPE html>\n    <html>\n    <head>\n        <meta charset=\"UTF-8\">\n        <title>Recipe Card</title>\n        <style>\n            @media print \x7b\n                body \x7b margin: 1in; \x7d\n                button \x7b display: none; \x7d\n            \x7d\n            body \x7b\n                font-family: \x27Georgia\x27, serif;\n                max-width: 800px;\n                margin: 40px auto;\n                padding: 20px;\n                line-height: 1.6;\n                color: #333;\n            \x7d\n            h1 \x7b\n                color: #2c5530;\n                border-bottom: 3px solid #2c5530;\n                padding-bottom: 10px;\n                margin-bottom: 20px;\n            \x7d\n            h2 \x7b\n                color: #5a7d5e;\n                margin-top: 30px;\n                margin-bottom: 15px;\n                font-size: 1.4em;\n            \x7d\n            hr \x7b\n                border: none;\n                border-top: 1px solid #ddd;\n                margin: 20px 0;\n            \x7d\n            ul \x7b\n                margin-left: 20px;\n                margin-bottom: 20px;\n                padding-left: 20px;\n            \x7d\n            ol \x7b\n                margin-left: 20px;\n                margin-bottom: 20px;\n                padding-left: 20px;\n            \x7d\n            ul li \x7b\n                margin-bottom: 8px;\n                list-style-type: disc;\n            \x7d\n            ol li \x7b\n                margin-bottom: 10px;\n                list-style-type: decimal;\n            \x7d\n            strong \x7b\n                color: #2c5530;\n            \x7d\n            p \x7b\n                margin: 8px 0;\n            \x7d\n            .print-button \x7b\n                background-color: #2c5530;\n                color: white;\n                padding: 12px 24px;\n                border: none;\n                border-radius: 5px;\n                cursor: pointer;\n                font-size: 16px;\n                margin: 20px 0;\n                display: block;\n            \x7d\n            .print-button:hover \x7b\n                background-color: #1e3d22;\n            \x7d\n            @page \x7b\n                margin: 1in;\n            \x7d\n        </style>\n    </head>\n    <body>\n        "

def htmlPreB : List Char := pyStr "🖨️ Print Recipe Card</button>\n        "

def htmlPostA : List Char := pyStr "\n        "

def htmlPostB : List Char := pyStr "🖨️ Print Recipe Card</button>\n    </body>\n    </html>\n    "

/-- Fixed template text before the body (as far as the first button). -/
def htmlBefore : List Char := htmlPreA ++ (buttonMarkup ++ htmlPreB)

/-- Fixed template text after the body (containing the second button). -/
def htmlAfter : List Char := htmlPostA ++ (buttonMarkup ++ htmlPostB)

/-- `create_recipe_card_html` from `src/utils.py`: the rendered body lines
joined by newlines, embedded in the fixed printable-document template. -/
def create_recipe_card_html (recipe_card_content : List Char) : List Char :=
  htmlBefore ++ (List.intercalate (pyStr "\n") (bodyLines recipe_card_content) ++ htmlAfter)

/-! ## Display-name cleaner (`_clean_display_name`, `src/saved_recipes.py`) -/

/-- The apostrophe character. -/
def apos : Char := Char.ofNat 39

/-- Regular-expression syntax covering exactly the constructs used by the
two `ai_patterns` of `_clean_display_name`: case-insensitive literals,
single-character classes, concatenation, ordered alternation, greedy
option, greedy and lazy plus of a character class, and one capturing
group. -/
inductive RE : Type
  | eps : RE
  | cls (p : Char → Bool) : RE
  | lit (s : List Char) : RE
  | seq (a b : RE) : RE
  | alt (a b : RE) : RE
  | opt (a : RE) : RE
  | plusGreedy (p : Char → Bool) : RE
  | plusLazy (p : Char → Bool) : RE
  | grp (a : RE) : RE

/-- All ways a pattern can match a prefix of `cs`, in Python backtracking
priority order; each result pairs the remaining input with the capture of
the (single) group when it participated in the match. -/
def mmatch : RE → List Char → List (List Char × Option (List Char))
  | .eps, cs => [(cs, none)]
  | .cls _, [] => []
  | .cls p, c :: cs => if p c then [(cs, none)] else []
  | .lit s, cs =>
    if s.length ≤ cs.length ∧ pyLower (cs.take s.length) = pyLower s then
      [(cs.drop s.length, none)]
    else []
  | .seq a b, cs =>
    (mmatch a cs).flatMap (fun pr =>
      (mmatch b pr.1).map (fun qr => (qr.1, pr.2 <|> qr.2)))
  | .alt a b, cs => mmatch a cs ++ mmatch b cs
  | .opt a, cs => mmatch a cs ++ [(cs, none)]
  | .plusGreedy p, cs =>
    ((List.range (cs.takeWhile p).length).map
      (fun k => (cs.drop (k + 1), (none : Option (List Char))))).reverse
  | .plusLazy p, cs =>
    (List.range (cs.takeWhile p).length).map
      (fun k => (cs.drop (k + 1), (none : Option (List Char))))
  | .grp a, cs =>
    (mmatch a cs).map (fun pr => (pr.1, some (cs.take (cs.length - pr.1.length))))

/-- `re.search(pattern, cs, re.IGNORECASE)`: try each start position left to
right; at the first position where the pattern matches, Python commits to
the first match in backtracking order; project its group-1 capture. -/
def reSearch (r : RE) (cs : List Char) : Option (List Char) :=
  match (mmatch r cs).head? with
  | some pr => some (pr.2.getD [])
  | none =>
    match cs with
    | [] => none
    | _ :: t => reSearch r t

/-- Ordered alternation of a nonempty list of branches. -/
def altList : List RE → RE
  | [] => .cls (fun _ => false)
  | [r] => r
  | r :: rest => .alt r (altList rest)

/-- `\s+` (greedy). -/
def spacePlus : RE := .plusGreedy isPySpace

/-- A case-insensitive literal from a Lean string. -/
def rlit (s : String) : RE := .lit (pyStr s)

/-- `(?:how about|let'?s make|let'?s try|try making|here'?s|here is)`. -/
def trigger1 : RE :=
  altList
    [rlit "how about",
     .seq (rlit "let") (.seq (.opt (.lit [apos])) (rlit "s make")),
     .seq (rlit "let") (.seq (.opt (.lit [apos])) (rlit "s try")),
     rlit "try making",
     .seq (rlit "here") (.seq (.opt (.lit [apos])) (rlit "s")),
     rlit "here is"]

/-- `(?:recipe for|make|making)`. -/
def trigger2 : RE := altList [rlit "recipe for", rlit "make", rlit "making"]

/-- `(?:a\s+|some\s+)?`. -/
def articleOpt : RE :=
  .opt (altList [.seq (rlit "a") spacePlus, .seq (rlit "some") spacePlus])

/-- `(?:delicious\s+|classic\s+|homemade\s+|amazing\s+)?`. -/
def adjectives1 : RE :=
  .opt (altList
    [.seq (rlit "delicious") spacePlus, .seq (rlit "classic") spacePlus,
     .seq (rlit "homemade") spacePlus, .seq (rlit "amazing") spacePlus])

/-- `(?:delicious\s+|classic\s+)?`. -/
def adjectives2 : RE :=
  .opt (altList [.seq (rlit "delicious") spacePlus, .seq (rlit "classic") spacePlus])

/-- `(.+?)(?:\?|!|\.|,|this\s)`: lazy dot-plus capture up to the first
terminator. -/
def captureToTerm : RE :=
  .seq (.grp (.plusLazy (fun c => c != '\n')))
    (altList
      [.cls (fun c => c = '?'), .cls (fun c => c = '!'), .cls (fun c => c = '.'),
       .cls (fun c => c = ','), .seq (rlit "this") (.cls isPySpace)])

/-- First `ai_patterns` entry of `_clean_display_name`. -/
def ai_pattern1 : RE :=
  .seq trigger1 (.seq spacePlus (.seq articleOpt (.seq adjectives1 captureToTerm)))

/-- Second `ai_patterns` entry of `_clean_display_name`. -/
def ai_pattern2 : RE :=
  .seq trigger2 (.seq spacePlus (.seq articleOpt (.seq adjectives2 captureToTerm)))

/-- The conversational-marker substrings that gate the AI-extraction step. -/
def trigger_phrases : List (List Char) :=
  [pyStr "sure!", pyStr "how about", pyStr "let" ++ [apos] ++ pyStr "s",
   pyStr "here" ++ [apos] ++ pyStr "s", pyStr "try making", pyStr "here is"]

/-- `match.group(1).strip().rstrip('.,!? ')` with the ≥ 3 length check:
`some extracted` exactly when the pattern matches and the trimmed capture
has at least 3 characters. -/
def tryPattern (r : RE) (clean : List Char) : Option (List Char) :=
  match reSearch r clean with
  | none => none
  | some cap =>
    let extracted := stripRight
      (fun c => c = '.' || c = ',' || c = '!' || c = '?' || c = ' ') (pyStrip cap)
    if 3 ≤ extracted.length then some extracted else none

/-- The conversational-extraction step of `_clean_display_name`: when a
trigger phrase occurs in the lowercased string, try the two patterns in
order and replace `clean` by the first acceptable extraction. -/
def aiExtractStep (clean : List Char) : List Char :=
  let lower := pyLower clean
  if trigger_phrases.any (fun p => isSubstr p lower) then
    match tryPattern ai_pattern1 clean with
    | some e => e
    | none =>
      match tryPattern ai_pattern2 clean with
      | some e => e
      | none => clean
  else clean

/-- `name.replace('#', '').replace('*', '').strip().rstrip(':').strip()`. -/
def cleanBase (name : List Char) : List Char :=
  pyStrip (stripRight (fun c => c = ':')
    (pyStrip ((name.filter (fun c => c != '#')).filter (fun c => c != '*'))))

/-- The generic headers rejected by `_clean_display_name`. -/
def genericHeaders : List (List Char) :=
  [pyStr "introduction", pyStr "overview", pyStr "recipe", pyStr "description"]

/-- `s.rsplit(' ', 1)[0]`: everything before the last space, or the whole
string when it has no space. -/
def rsplitSpaceFst (l : List Char) : List Char :=
  if l.contains ' ' then ((l.reverse.dropWhile (fun c => c != ' ')).drop 1).reverse
  else l

/-- `_clean_display_name` from `src/saved_recipes.py`. -/
def clean_display_name (name : List Char) (max_len : Nat) : List Char :=
  if name.isEmpty then pyStr "Untitled Recipe"
  else
    let clean := aiExtractStep (cleanBase name)
    if (pyLower clean) ∈ genericHeaders then pyStr "Untitled Recipe"
    else
      let clean :=
        if max_len < clean.length then rsplitSpaceFst (clean.take max_len) ++ pyStr "..."
        else clean
      if clean.isEmpty then pyStr "Untitled Recipe" else clean

/-! ## Single-line view of pass 3 -/

/-- The loop body of pass 3 for a single line: the value returned for this
line, or `none` when the line is skipped. -/
def pass3Line (line : List Char) : Option (List Char) :=
  let stripped := pyStrip line
  if stripped.isEmpty then none
  else
    let lower := pyLower stripped
    if intro_patterns.any (fun p => isSubstr p lower) then none
    else if metadata_patterns.any (fun p => isSubstr p lower) then none
    else if stripped.head? = some '-' ∨ stripped.head? = some '•' then none
    else if numberedStep stripped then none
    else
      let clean := cleanLine stripped
      if 3 ≤ clean.length ∧ clean.length ≤ 80 then some clean else none

/-! ## Untruncated pass candidates -/

/-- The heading pass before its final 80-character truncation. -/
def pass1Raw : List (List Char) → Option (List Char)
  | [] => none
  | line :: rest =>
    let stripped := pyStrip line
    if stripped.head? = some '#' then
      let name := pyStrip (stripped.dropWhile (fun c => c == '#'))
      if name ≠ [] ∧ 3 ≤ name.length ∧ startsWithSectionWord section_words1 name = false then
        some name
      else pass1Raw rest
    else pass1Raw rest

/-- The bold-standalone pass before its final 80-character truncation. -/
def pass2Raw : List (List Char) → Option (List Char)
  | [] => none
  | line :: rest =>
    let stripped := pyStrip line
    match boldStandalone stripped with
    | some g =>
      let name := pyStrip g
      if 3 ≤ name.length ∧ startsWithSectionWord section_words2 name = false then
        some name
      else pass2Raw rest
    | none => pass2Raw rest

/-- The fallback pass before its final 80-character truncation. -/
def fallbackRaw : List (List Char) → Option (List Char)
  | [] => none
  | line :: rest =>
    let clean := cleanLine (pyStrip line)
    if clean ≠ [] ∧ 3 < clean.length then some clean
    else fallbackRaw rest

/-- The untruncated candidate produced by whichever pass fires first. -/
def rawCandidate (ls : List (List Char)) : Option (List Char) :=
  match pass1Raw ls with
  | some n => some n
  | none =>
    match pass2Raw ls with
    | some n => some n
    | none =>
      match pass3 ls with
      | some n => some n
      | none => fallbackRaw ls

/-- Modelled from the spec: the truncation the spec describes for the title
extractor — "truncate to 80 characters, then drop back to the last
whitespace boundary before the cut and append nothing extra". -/
def specTitleTruncate (s : List Char) : List Char :=
  rsplitSpaceFst (s.take 80)

/-! ## List-tag balance valuations -/

def boolInt (b : Bool) : Int := if b then 1 else 0

/-- +1 for `<ul>`, −1 for `</ul>`, 0 otherwise. -/
def ulTagVal (e : List Char) : Int :=
  if e = ulOpenTag then 1 else if e = ulCloseTag then -1 else 0

/-- +1 for `<ol>`, −1 for `</ol>`, 0 otherwise. -/
def olTagVal (e : List Char) : Int :=
  if e = olOpenTag then 1 else if e = olCloseTag then -1 else 0

def listBal (v : List Char → Int) : List (List Char) → Int
  | [] => 0
  | e :: rest => v e + listBal v rest

/-- The two-counter safety predicate for a prefix of the emitted lines:
with `iu`/`io` lists initially open, no close ever outstrips its opens and
at most one list is open. -/
def BalOk (iu io : Int) (t : List (List Char)) : Prop :=
  0 ≤ iu + listBal ulTagVal t ∧ 0 ≤ io + listBal olTagVal t ∧
  iu + listBal ulTagVal t + (io + listBal olTagVal t) ≤ 1

/-! ## Occurrence counting -/

/-- Number of positions at which `pat` occurs in `s`. -/
def occursCount (pat : List Char) : List Char → Nat
  | [] => if pat.isPrefixOf ([] : List Char) then 1 else 0
  | c :: rest => (if pat.isPrefixOf (c :: rest) then 1 else 0) + occursCount pat rest

/-! ## Per-line emitted element -/

/-- The single block element emitted for a non-blank stripped line, per the
renderer's classification table. -/
def lineElement (s : List Char) : List Char :=
  if (pyStr "# ").isPrefixOf s then pyStr "<h1>" ++ s.drop 2 ++ pyStr "</h1>"
  else if (pyStr "## ").isPrefixOf s then pyStr "<h2>" ++ s.drop 3 ++ pyStr "</h2>"
  else if s = pyStr "---" then pyStr "<hr>"
  else if (pyStr "- ").isPrefixOf s then pyStr "<li>" ++ boldSub (s.drop 2) ++ pyStr "</li>"
  else if numberedItem s then pyStr "<li>" ++ boldSub (stripNumbering s) ++ pyStr "</li>"
  else pyStr "<p>" ++ boldSub s ++ pyStr "</p>"

/-- Modelled from the spec: the display-name truncation it describes —
truncate to `max_len` characters, back off to the last whitespace boundary,
and append an ellipsis marker. -/
def specEllipsisTruncate (s : List Char) (max_len : Nat) : List Char :=
  rsplitSpaceFst (s.take max_len) ++ pyStr "..."

/-! ## Conformance examples -/

example : extract_recipe_name (pyStr "# Garlic Butter Shrimp\n\nIngredients:\n- shrimp")
    = pyStr "Garlic Butter Shrimp" := by decide

example : extract_recipe_name (pyStr "") = pyStr "Untitled Recipe" := by decide

example : extract_recipe_name (pyStr "# A*B") = pyStr "A*B" := by decide

example : extract_recipe_name (pyStr "## Ingredients\nTasty stew") = pyStr "Ingredients" := by
  decide

example : bodyLines (pyStr "- a\n- b\n\n1. x\n2. y") =
    [pyStr "<ul>", pyStr "<li>a</li>", pyStr "<li>b</li>", pyStr "</ul>",
     pyStr "<ol>", pyStr "<li>x</li>", pyStr "<li>y</li>", pyStr "</ol>"] := by decide

example : bodyLines (pyStr "**bold** and plain") =
    [pyStr "<p><strong>bold</strong> and plain</p>"] := by decide

example : boldSub (pyStr "***a**") = pyStr "<strong>*a</strong>" := by decide

example : boldSub (pyStr "****") = pyStr "****" := by decide

example : clean_display_name (pyStr "Sure! How about a delicious Thai Green Curry? Enjoy") 55
    = pyStr "Thai Green Curry" := by decide

example : clean_display_name
    (pyStr "sure! let" ++ [apos] ++ pyStr "s make some classic lasagna, friends") 55
    = pyStr "lasagna" := by decide

example : clean_display_name
    (pyStr "Here" ++ [apos] ++ pyStr "s a homemade pizza this weekend") 55
    = pyStr "pizza" := by decide

example : clean_display_name (pyStr "## **Chicken** Soup:") 55 = pyStr "Chicken Soup" := by
  decide

example : clean_display_name (pyStr "here is the recipe for a delicious beef stew. yum") 55
    = pyStr "the recipe for a delicious beef stew" := by decide

example : clean_display_name (pyStr "Recipe") 4 = pyStr "Untitled Recipe" := by decide

example : clean_display_name (List.replicate 100 'x') 55
    = List.replicate 55 'x' ++ pyStr "..." := by decide

example : clean_display_name (pyStr "Sure! ab? long tail here") 55
    = pyStr "Sure! ab? long tail here" := by decide

example : clean_display_name (pyStr "how about it") 55 = pyStr "how about it" := by decide

example : clean_display_name
    (pyStr "Let" ++ [apos] ++ pyStr "s try AB!") 55
    = pyStr "Let" ++ [apos] ++ pyStr "s try AB!" := by decide

example : clean_display_name (pyStr "") 55 = pyStr "Untitled Recipe" := by decide

/-! ## Shared lemmas -/

lemma mem_of_mem_stripRight {p : Char → Bool} {l : List Char} {x : Char}
    (h : x ∈ stripRight p l) : x ∈ l := by
  unfold stripRight at h
  rw [List.mem_reverse] at h
  exact List.mem_reverse.mp (List.Sublist.mem h (List.dropWhile_sublist _))

lemma mem_of_mem_pyStrip {l : List Char} {x : Char} (h : x ∈ pyStrip l) : x ∈ l :=
  List.Sublist.mem (mem_of_mem_stripRight h) (List.dropWhile_sublist _)

lemma mem_of_mem_take {l : List Char} {n : Nat} {x : Char} (h : x ∈ l.take n) : x ∈ l :=
  List.Sublist.mem h (List.take_sublist _ _)

lemma mem_cleanLine {s : List Char} {x : Char} (h : x ∈ cleanLine s) :
    x ∈ s ∧ x ≠ '#' ∧ x ≠ '*' := by
  unfold cleanLine at h
  have h2 := mem_of_mem_pyStrip h
  rw [List.mem_filter] at h2
  obtain ⟨h3, hstar⟩ := h2
  rw [List.mem_filter] at h3
  obtain ⟨h4, hhash⟩ := h3
  refine ⟨h4, ?_, ?_⟩
  · simpa using hhash
  · simpa using hstar

lemma pass1_length : ∀ ls n, pass1 ls = some n → 3 ≤ n.length ∧ n.length ≤ 80 := by
  intro ls
  induction ls with
  | nil => intro n h; simp [pass1] at h
  | cons line rest ih =>
    intro n h
    simp only [pass1] at h
    split at h
    · split at h
      · rename_i hcond
        obtain ⟨-, h3, -⟩ := hcond
        obtain rfl : _ = n := Option.some.inj h
        rw [List.length_take]
        omega
      · exact ih n h
    · exact ih n h

lemma pass2_length : ∀ ls n, pass2 ls = some n → 3 ≤ n.length ∧ n.length ≤ 80 := by
  intro ls
  induction ls with
  | nil => intro n h; simp [pass2] at h
  | cons line rest ih =>
    intro n h
    simp only [pass2] at h
    split at h
    · split at h
      · rename_i hcond
        obtain ⟨h3, -⟩ := hcond
        obtain rfl : _ = n := Option.some.inj h
        rw [List.length_take]
        omega
      · exact ih n h
    · exact ih n h

lemma pass3_length : ∀ ls n, pass3 ls = some n → 3 ≤ n.length ∧ n.length ≤ 80 := by
  intro ls
  induction ls with
  | nil => intro n h; simp [pass3] at h
  | cons line rest ih =>
    intro n h
    simp only [pass3] at h
    split at h
    · exact ih n h
    · split at h
      · exact ih n h
      · split at h
        · exact ih n h
        · split at h
          · exact ih n h
          · split at h
            · exact ih n h
            · split at h
              · rename_i hcond
                obtain rfl : _ = n := Option.some.inj h
                exact hcond
              · exact ih n h

lemma fallbackPass_length : ∀ ls n, fallbackPass ls = some n → 4 ≤ n.length ∧ n.length ≤ 80 := by
  intro ls
  induction ls with
  | nil => intro n h; simp [fallbackPass] at h
  | cons line rest ih =>
    intro n h
    simp only [fallbackPass] at h
    split at h
    · rename_i hcond
      obtain ⟨-, h3⟩ := hcond
      obtain rfl : _ = n := Option.some.inj h
      rw [List.length_take]
      omega
    · exact ih n h

lemma extract_eq_pass1 {s n : List Char} (h : pass1 (splitLines s) = some n) :
    extract_recipe_name s = n := by
  unfold extract_recipe_name
  rw [h]

lemma extract_eq_pass2 {s n : List Char} (h1 : pass1 (splitLines s) = none)
    (h : pass2 (splitLines s) = some n) : extract_recipe_name s = n := by
  unfold extract_recipe_name
  rw [h1, h]

lemma extract_eq_pass3 {s n : List Char} (h1 : pass1 (splitLines s) = none)
    (h2 : pass2 (splitLines s) = none) (h : pass3 (splitLines s) = some n) :
    extract_recipe_name s = n := by
  unfold extract_recipe_name
  rw [h1, h2, h]

lemma extract_eq_fallback {s n : List Char} (h1 : pass1 (splitLines s) = none)
    (h2 : pass2 (splitLines s) = none) (h3 : pass3 (splitLines s) = none)
    (h : fallbackPass (splitLines s) = some n) : extract_recipe_name s = n := by
  unfold extract_recipe_name
  rw [h1, h2, h3, h]

lemma extract_eq_untitled {s : List Char} (h1 : pass1 (splitLines s) = none)
    (h2 : pass2 (splitLines s) = none) (h3 : pass3 (splitLines s) = none)
    (h4 : fallbackPass (splitLines s) = none) :
    extract_recipe_name s = pyStr "Untitled Recipe" := by
  unfold extract_recipe_name
  rw [h1, h2, h3, h4]

/-- The result of the extractor always has between 3 and 80 characters. -/
lemma extract_length_bounds (s : List Char) :
    3 ≤ (extract_recipe_name s).length ∧ (extract_recipe_name s).length ≤ 80 := by
  cases h1 : pass1 (splitLines s) with
  | some n => rw [extract_eq_pass1 h1]; exact pass1_length _ n h1
  | none =>
    cases h2 : pass2 (splitLines s) with
    | some n => rw [extract_eq_pass2 h1 h2]; exact pass2_length _ n h2
    | none =>
      cases h3 : pass3 (splitLines s) with
      | some n => rw [extract_eq_pass3 h1 h2 h3]; exact pass3_length _ n h3
      | none =>
        cases h4 : fallbackPass (splitLines s) with
        | some n =>
          rw [extract_eq_fallback h1 h2 h3 h4]
          have := fallbackPass_length _ n h4
          omega
        | none => rw [extract_eq_untitled h1 h2 h3 h4]; decide

lemma pass3_no_markers : ∀ ls n, pass3 ls = some n → '#' ∉ n ∧ '*' ∉ n := by
  intro ls
  induction ls with
  | nil => intro n h; simp [pass3] at h
  | cons line rest ih =>
    intro n h
    simp only [pass3] at h
    split at h
    · exact ih n h
    · split at h
      · exact ih n h
      · split at h
        · exact ih n h
        · split at h
          · exact ih n h
          · split at h
            · exact ih n h
            · split at h
              · obtain rfl : _ = n := Option.some.inj h
                constructor
                · intro hmem
                  exact absurd rfl (mem_cleanLine hmem).2.1
                · intro hmem
                  exact absurd rfl (mem_cleanLine hmem).2.2
              · exact ih n h

lemma fallbackPass_no_markers : ∀ ls n, fallbackPass ls = some n → '#' ∉ n ∧ '*' ∉ n := by
  intro ls
  induction ls with
  | nil => intro n h; simp [fallbackPass] at h
  | cons line rest ih =>
    intro n h
    simp only [fallbackPass] at h
    split at h
    · obtain rfl : _ = n := Option.some.inj h
      constructor
      · intro hmem
        exact absurd rfl (mem_cleanLine (mem_of_mem_take hmem)).2.1
      · intro hmem
        exact absurd rfl (mem_cleanLine (mem_of_mem_take hmem)).2.2
    · exact ih n h

lemma pass1_none_of_blank : ∀ ls, (∀ l ∈ ls, pyStrip l = []) → pass1 ls = none := by
  intro ls
  induction ls with
  | nil => intro _; rfl
  | cons line rest ih =>
    intro h
    have hline : pyStrip line = [] := h line (by simp)
    simp only [pass1, hline]
    simp only [List.head?_nil, reduceCtorEq, if_false]
    exact ih (fun l hl => h l (by simp [hl]))

lemma pass2_none_of_blank : ∀ ls, (∀ l ∈ ls, pyStrip l = []) → pass2 ls = none := by
  intro ls
  induction ls with
  | nil => intro _; rfl
  | cons line rest ih =>
    intro h
    have hline : pyStrip line = [] := h line (by simp)
    simp only [pass2, hline]
    have : boldStandalone [] = none := by decide
    rw [this]
    exact ih (fun l hl => h l (by simp [hl]))

lemma pass3_none_of_blank : ∀ ls, (∀ l ∈ ls, pyStrip l = []) → pass3 ls = none := by
  intro ls
  induction ls with
  | nil => intro _; rfl
  | cons line rest ih =>
    intro h
    have hline : pyStrip line = [] := h line (by simp)
    simp only [pass3, hline, List.isEmpty_nil, if_true]
    exact ih (fun l hl => h l (by simp [hl]))

lemma fallbackPass_none_of_blank : ∀ ls, (∀ l ∈ ls, pyStrip l = []) → fallbackPass ls = none := by
  intro ls
  induction ls with
  | nil => intro _; rfl
  | cons line rest ih =>
    intro h
    have hline : pyStrip line = [] := h line (by simp)
    simp only [fallbackPass, hline]
    have : cleanLine [] = [] := by decide
    rw [this]
    simp only [ne_eq, not_true_eq_false, false_and, if_false]
    exact ih (fun l hl => h l (by simp [hl]))

/-! ## Claims C1 and C7 -/

/-- C1 counterexample: the heading pass does not strip `*` characters from
the interior of a heading, so the extractor can return a title containing
`*` for a non-empty input. -/
theorem c1_counterexample :
    pyStr "# A*B" ≠ [] ∧ '*' ∈ extract_recipe_name (pyStr "# A*B") := by decide

/-- C1 (amended): for every non-empty input the extracted title has between
3 and 80 characters; the no-`#`/`*` guarantee holds for results of the
heuristic pass, the fallback pass and the fallback literal, but not for the
heading and bold passes. -/
theorem c1_amended (s : List Char) (h : s ≠ []) :
    (3 ≤ (extract_recipe_name s).length ∧ (extract_recipe_name s).length ≤ 80) ∧
    (pass1 (splitLines s) = none → pass2 (splitLines s) = none →
      '#' ∉ extract_recipe_name s ∧ '*' ∉ extract_recipe_name s) := by
  refine ⟨extract_length_bounds s, ?_⟩
  intro h1 h2
  cases h3 : pass3 (splitLines s) with
  | some n => rw [extract_eq_pass3 h1 h2 h3]; exact pass3_no_markers _ n h3
  | none =>
    cases h4 : fallbackPass (splitLines s) with
    | some n => rw [extract_eq_fallback h1 h2 h3 h4]; exact fallbackPass_no_markers _ n h4
    | none => rw [extract_eq_untitled h1 h2 h3 h4]; decide

/-- Witness for `c1_amended` at the concrete input `"abc"`. -/
theorem c1_witness :
    pyStr "abc" ≠ [] ∧
    ((3 ≤ (extract_recipe_name (pyStr "abc")).length ∧
        (extract_recipe_name (pyStr "abc")).length ≤ 80) ∧
      (pass1 (splitLines (pyStr "abc")) = none → pass2 (splitLines (pyStr "abc")) = none →
        '#' ∉ extract_recipe_name (pyStr "abc") ∧ '*' ∉ extract_recipe_name (pyStr "abc"))) :=
  ⟨by decide, c1_amended (pyStr "abc") (by decide)⟩

/-- C7: the extractor is total and never returns the empty string, and on
inputs whose lines are all blank it returns the literal fallback title. -/
theorem c7_total_and_untitled (s : List Char) :
    extract_recipe_name s ≠ [] ∧
    ((∀ l ∈ splitLines s, pyStrip l = []) →
      extract_recipe_name s = pyStr "Untitled Recipe") := by
  constructor
  · have h3 := (extract_length_bounds s).1
    intro he
    rw [he] at h3
    simp at h3
  · intro hb
    exact extract_eq_untitled (pass1_none_of_blank _ hb) (pass2_none_of_blank _ hb)
      (pass3_none_of_blank _ hb) (fallbackPass_none_of_blank _ hb)

/-- Witness for `c7_total_and_untitled` at the all-blank input `" \n\t"`. -/
theorem c7_witness :
    extract_recipe_name (pyStr " \n\t") ≠ [] ∧
    extract_recipe_name (pyStr " \n\t") = pyStr "Untitled Recipe" :=
  ⟨(c7_total_and_untitled (pyStr " \n\t")).1,
   (c7_total_and_untitled (pyStr " \n\t")).2 (by decide)⟩

lemma pass3_cons (line : List Char) (rest : List (List Char)) :
    pass3 (line :: rest) =
      match pass3Line line with
      | some c => some c
      | none => pass3 rest := by
  by_cases h1 : (pyStrip line).isEmpty = true
  · simp [pass3, pass3Line, h1]
  · by_cases h2 : intro_patterns.any (fun p => isSubstr p (pyLower (pyStrip line))) = true
    · simp [pass3, pass3Line, h1, h2]
    · by_cases h3 : metadata_patterns.any (fun p => isSubstr p (pyLower (pyStrip line))) = true
      · simp [pass3, pass3Line, h1, h2, h3]
      · by_cases h4 : (pyStrip line).head? = some '-' ∨ (pyStrip line).head? = some '•'
        · simp [pass3, pass3Line, h1, h2, h3, h4]
        · by_cases h5 : numberedStep (pyStrip line) = true
          · simp [pass3, pass3Line, h1, h2, h3, h4, h5]
          · by_cases h6 : 3 ≤ (cleanLine (pyStrip line)).length ∧
                (cleanLine (pyStrip line)).length ≤ 80
            · simp [pass3, pass3Line, h1, h2, h3, h4, h5, h6]
            · simp [pass3, pass3Line, h1, h2, h3, h4, h5, h6]

lemma pass3_eq_filterMap : ∀ ls, pass3 ls = (ls.filterMap pass3Line).head? := by
  intro ls
  induction ls with
  | nil => rfl
  | cons line rest ih =>
    rw [pass3_cons, List.filterMap_cons]
    cases h : pass3Line line with
    | none => simpa using ih
    | some c => simp

lemma pass3Line_spec (l c : List Char) (h : pass3Line l = some c) :
    c = cleanLine (pyStrip l) ∧ 3 ≤ c.length ∧ c.length ≤ 80 := by
  simp only [pass3Line] at h
  split at h
  · simp at h
  · split at h
    · simp at h
    · split at h
      · simp at h
      · split at h
        · simp at h
        · split at h
          · simp at h
          · split at h
            · rename_i hcond
              obtain rfl : _ = c := Option.some.inj h
              exact ⟨rfl, hcond⟩
            · simp at h

/-- C5 counterexample: a surviving line whose cleaned form exceeds 80
characters is skipped, not truncated; the extractor moves on to the next
surviving line. -/
theorem c5_counterexample :
    extract_recipe_name (List.replicate 100 'x' ++ '\n' :: pyStr "Tasty stew")
        = pyStr "Tasty stew" ∧
    pyStr "Tasty stew" ≠ (cleanLine (pyStrip (List.replicate 100 'x'))).take 80 := by decide

/-- C5 (amended): pass 3 returns the cleaned form of the first surviving
line whose cleaned form has 3 to 80 characters, as-is; surviving lines
whose cleaned form is outside that range are skipped rather than
truncated. -/
theorem c5_amended (ls : List (List Char)) :
    pass3 ls = (ls.filterMap pass3Line).head? ∧
    ∀ l c, pass3Line l = some c →
      c = cleanLine (pyStrip l) ∧ 3 ≤ c.length ∧ c.length ≤ 80 :=
  ⟨pass3_eq_filterMap ls, fun l c h => pass3Line_spec l c h⟩

/-- Witness for `c5_amended` at the one-line input `"Tasty stew"`. -/
theorem c5_witness :
    pass3 [pyStr "Tasty stew"] = ([pyStr "Tasty stew"].filterMap pass3Line).head? ∧
    (pyStr "Tasty stew" = cleanLine (pyStrip (pyStr "Tasty stew")) ∧
      3 ≤ (pyStr "Tasty stew").length ∧ (pyStr "Tasty stew").length ≤ 80) :=
  ⟨(c5_amended [pyStr "Tasty stew"]).1,
   (c5_amended [pyStr "Tasty stew"]).2 (pyStr "Tasty stew") (pyStr "Tasty stew") (by decide)⟩

lemma pass1_eq_raw : ∀ ls, pass1 ls = (pass1Raw ls).map (fun n => n.take 80) := by
  intro ls
  induction ls with
  | nil => rfl
  | cons line rest ih =>
    by_cases h1 : (pyStrip line).head? = some '#'
    · by_cases h2 : pyStrip ((pyStrip line).dropWhile (fun c => c == '#')) ≠ [] ∧
          3 ≤ (pyStrip ((pyStrip line).dropWhile (fun c => c == '#'))).length ∧
          startsWithSectionWord section_words1
            (pyStrip ((pyStrip line).dropWhile (fun c => c == '#'))) = false
      · simp [pass1, pass1Raw, h1, h2]
      · simp [pass1, pass1Raw, h1, h2, ih]
    · simp [pass1, pass1Raw, h1, ih]

lemma pass2_eq_raw : ∀ ls, pass2 ls = (pass2Raw ls).map (fun n => n.take 80) := by
  intro ls
  induction ls with
  | nil => rfl
  | cons line rest ih =>
    cases hb : boldStandalone (pyStrip line) with
    | none => simp [pass2, pass2Raw, hb, ih]
    | some g =>
      by_cases h2 : 3 ≤ (pyStrip g).length ∧
          startsWithSectionWord section_words2 (pyStrip g) = false
      · simp [pass2, pass2Raw, hb, h2]
      · simp [pass2, pass2Raw, hb, h2, ih]

lemma fallback_eq_raw : ∀ ls, fallbackPass ls = (fallbackRaw ls).map (fun n => n.take 80) := by
  intro ls
  induction ls with
  | nil => rfl
  | cons line rest ih =>
    by_cases h1 : cleanLine (pyStrip line) ≠ [] ∧ 3 < (cleanLine (pyStrip line)).length
    · simp [fallbackPass, fallbackRaw, h1]
    · simp [fallbackPass, fallbackRaw, h1, ih]

/-- C4 counterexample: a 91-character heading title is truncated by a plain
80-character cut, not backed off to the last whitespace boundary: the
result ends mid-word in the `b` run. -/
theorem c4_counterexample :
    extract_recipe_name (pyStr "# " ++ (List.replicate 70 'a' ++ ' ' :: List.replicate 20 'b'))
        = List.replicate 70 'a' ++ ' ' :: List.replicate 9 'b' ∧
    extract_recipe_name (pyStr "# " ++ (List.replicate 70 'a' ++ ' ' :: List.replicate 20 'b'))
        ≠ specTitleTruncate (List.replicate 70 'a' ++ ' ' :: List.replicate 20 'b') := by decide

/-- C4 (amended): whatever pass produces the title, the returned string is
the plain 80-character prefix of the pass's untruncated candidate, with
nothing appended and no whitespace back-off (passes that cannot exceed 80
characters are covered because `take 80` is then the identity). -/
theorem c4_amended (s : List Char) :
    extract_recipe_name s = pyStr "Untitled Recipe" ∨
    ∃ raw, rawCandidate (splitLines s) = some raw ∧
      extract_recipe_name s = raw.take 80 := by
  cases h1 : pass1Raw (splitLines s) with
  | some n =>
    have hp : pass1 (splitLines s) = some (n.take 80) := by
      rw [pass1_eq_raw, h1]; rfl
    exact Or.inr ⟨n, by simp [rawCandidate, h1], extract_eq_pass1 hp⟩
  | none =>
    have hp1 : pass1 (splitLines s) = none := by rw [pass1_eq_raw, h1]; rfl
    cases h2 : pass2Raw (splitLines s) with
    | some n =>
      have hp : pass2 (splitLines s) = some (n.take 80) := by
        rw [pass2_eq_raw, h2]; rfl
      exact Or.inr ⟨n, by simp [rawCandidate, h1, h2], extract_eq_pass2 hp1 hp⟩
    | none =>
      have hp2 : pass2 (splitLines s) = none := by rw [pass2_eq_raw, h2]; rfl
      cases h3 : pass3 (splitLines s) with
      | some n =>
        refine Or.inr ⟨n, by simp [rawCandidate, h1, h2, h3], ?_⟩
        rw [extract_eq_pass3 hp1 hp2 h3]
        exact (List.take_of_length_le (pass3_length _ n h3).2).symm
      | none =>
        cases h4 : fallbackRaw (splitLines s) with
        | some n =>
          have hp : fallbackPass (splitLines s) = some (n.take 80) := by
            rw [fallback_eq_raw, h4]; rfl
          exact Or.inr ⟨n, by simp [rawCandidate, h1, h2, h3, h4],
            extract_eq_fallback hp1 hp2 h3 hp⟩
        | none =>
          have hp4 : fallbackPass (splitLines s) = none := by
            rw [fallback_eq_raw, h4]; rfl
          exact Or.inl (extract_eq_untitled hp1 hp2 h3 hp4)

@[simp] lemma listBal_nil (v : List Char → Int) : listBal v [] = 0 := rfl

@[simp] lemma listBal_cons (v : List Char → Int) (e : List Char) (rest : List (List Char)) :
    listBal v (e :: rest) = v e + listBal v rest := rfl

@[simp] lemma listBal_append (v : List Char → Int) :
    ∀ a b : List (List Char), listBal v (a ++ b) = listBal v a + listBal v b := by
  intro a b
  induction a with
  | nil => simp
  | cons e rest ih => simp [ih]; ring

lemma append_ne_of_take2 {a t : List Char} (x : List Char)
    (hlen : 2 ≤ a.length) (hne : a.take 2 ≠ t.take 2) : a ++ x ≠ t := by
  intro he
  have h2 := congrArg (List.take 2) he
  rw [List.take_append_of_le_length hlen] at h2
  exact hne h2

@[simp] lemma ulTagVal_h1 (x : List Char) : ulTagVal (pyStr "<h1>" ++ x) = 0 := by
  unfold ulTagVal
  rw [if_neg (append_ne_of_take2 x (by decide) (by decide)),
    if_neg (append_ne_of_take2 x (by decide) (by decide))]

@[simp] lemma olTagVal_h1 (x : List Char) : olTagVal (pyStr "<h1>" ++ x) = 0 := by
  unfold olTagVal
  rw [if_neg (append_ne_of_take2 x (by decide) (by decide)),
    if_neg (append_ne_of_take2 x (by decide) (by decide))]

@[simp] lemma ulTagVal_h2 (x : List Char) : ulTagVal (pyStr "<h2>" ++ x) = 0 := by
  unfold ulTagVal
  rw [if_neg (append_ne_of_take2 x (by decide) (by decide)),
    if_neg (append_ne_of_take2 x (by decide) (by decide))]

@[simp] lemma olTagVal_h2 (x : List Char) : olTagVal (pyStr "<h2>" ++ x) = 0 := by
  unfold olTagVal
  rw [if_neg (append_ne_of_take2 x (by decide) (by decide)),
    if_neg (append_ne_of_take2 x (by decide) (by decide))]

@[simp] lemma ulTagVal_li (x : List Char) : ulTagVal (pyStr "<li>" ++ x) = 0 := by
  unfold ulTagVal
  rw [if_neg (append_ne_of_take2 x (by decide) (by decide)),
    if_neg (append_ne_of_take2 x (by decide) (by decide))]

@[simp] lemma olTagVal_li (x : List Char) : olTagVal (pyStr "<li>" ++ x) = 0 := by
  unfold olTagVal
  rw [if_neg (append_ne_of_take2 x (by decide) (by decide)),
    if_neg (append_ne_of_take2 x (by decide) (by decide))]

@[simp] lemma ulTagVal_p (x : List Char) : ulTagVal (pyStr "<p>" ++ x) = 0 := by
  unfold ulTagVal
  rw [if_neg (append_ne_of_take2 x (by decide) (by decide)),
    if_neg (append_ne_of_take2 x (by decide) (by decide))]

@[simp] lemma olTagVal_p (x : List Char) : olTagVal (pyStr "<p>" ++ x) = 0 := by
  unfold olTagVal
  rw [if_neg (append_ne_of_take2 x (by decide) (by decide)),
    if_neg (append_ne_of_take2 x (by decide) (by decide))]

@[simp] lemma ulTagVal_hr : ulTagVal (pyStr "<hr>") = 0 := by decide

@[simp] lemma olTagVal_hr : olTagVal (pyStr "<hr>") = 0 := by decide

@[simp] lemma ulTagVal_ulOpen : ulTagVal ulOpenTag = 1 := by decide

@[simp] lemma ulTagVal_ulClose : ulTagVal ulCloseTag = -1 := by decide

@[simp] lemma ulTagVal_olOpen : ulTagVal olOpenTag = 0 := by decide

@[simp] lemma ulTagVal_olClose : ulTagVal olCloseTag = 0 := by decide

@[simp] lemma olTagVal_ulOpen : olTagVal ulOpenTag = 0 := by decide

@[simp] lemma olTagVal_ulClose : olTagVal ulCloseTag = 0 := by decide

@[simp] lemma olTagVal_olOpen : olTagVal olOpenTag = 1 := by decide

@[simp] lemma olTagVal_olClose : olTagVal olCloseTag = -1 := by decide

@[simp] lemma listBal_ul_closeUl : ∀ u, listBal ulTagVal (closeUl u) = -(boolInt u) := by decide

@[simp] lemma listBal_ol_closeUl : ∀ u, listBal olTagVal (closeUl u) = 0 := by decide

@[simp] lemma listBal_ul_closeOl : ∀ o, listBal ulTagVal (closeOl o) = 0 := by decide

@[simp] lemma listBal_ol_closeOl : ∀ o, listBal olTagVal (closeOl o) = -(boolInt o) := by decide

@[simp] lemma listBal_ul_openUl : ∀ u, listBal ulTagVal (openUl u) = 1 - boolInt u := by decide

@[simp] lemma listBal_ol_openUl : ∀ u, listBal olTagVal (openUl u) = 0 := by decide

@[simp] lemma listBal_ul_openOl : ∀ o, listBal ulTagVal (openOl o) = 0 := by decide

@[simp] lemma listBal_ol_openOl : ∀ o, listBal olTagVal (openOl o) = 1 - boolInt o := by decide

@[simp] lemma listBal_ul_closeBoth (u o : Bool) :
    listBal ulTagVal (closeBoth u o) = -(boolInt u) := by
  unfold closeBoth
  simp

@[simp] lemma listBal_ol_closeBoth (u o : Bool) :
    listBal olTagVal (closeBoth u o) = -(boolInt o) := by
  unfold closeBoth
  simp

/-- The net `<ul>`/`</ul>` and `<ol>`/`</ol>` balance of the emitted lines
equals minus the initially-open lists: every list opened in the output is
closed in the output. -/
lemma render_total : ∀ ls (u o : Bool),
    listBal ulTagVal (renderLines ls u o) = -(boolInt u) ∧
    listBal olTagVal (renderLines ls u o) = -(boolInt o) := by
  intro ls
  induction ls with
  | nil => intro u o; simp [renderLines]
  | cons line rest ih =>
    intro u o
    simp only [renderLines]
    split
    · cases u <;> cases o <;> simp [boolInt, (ih false false).1, (ih false false).2]
    · split
      · cases u <;> cases o <;> simp [boolInt, (ih false false).1, (ih false false).2]
      · split
        · cases u <;> cases o <;> simp [boolInt, (ih false false).1, (ih false false).2]
        · split
          · cases u <;> cases o <;> simp [boolInt, (ih false false).1, (ih false false).2]
          · split
            · cases u <;> cases o <;> simp [boolInt, (ih true false).1, (ih true false).2]
            · split
              · cases u <;> cases o <;> simp [boolInt, (ih false true).1, (ih false true).2]
              · cases u <;> cases o <;> simp [boolInt, (ih false false).1, (ih false false).2]

lemma balOk_cons_shift {iu io : Int} {e : List Char} {rest : List (List Char)}
    (h0 : 0 ≤ iu ∧ 0 ≤ io ∧ iu + io ≤ 1)
    (hrest : ∀ n, BalOk (iu + ulTagVal e) (io + olTagVal e) (rest.take n)) :
    ∀ n, BalOk iu io ((e :: rest).take n) := by
  intro n
  match n with
  | 0 =>
    refine ⟨?_, ?_, ?_⟩ <;> simp <;> omega
  | n + 1 =>
    have h := hrest n
    unfold BalOk at h ⊢
    rw [List.take_succ_cons, listBal_cons, listBal_cons]
    omega

lemma balOk_zero_walk {iu io : Int} {rest : List (List Char)} :
    ∀ P : List (List Char), (∀ e ∈ P, ulTagVal e = 0 ∧ olTagVal e = 0) →
    (∀ n, BalOk iu io (rest.take n)) → (0 ≤ iu ∧ 0 ≤ io ∧ iu + io ≤ 1) →
    ∀ n, BalOk iu io ((P ++ rest).take n) := by
  intro P
  induction P with
  | nil => intro _ hrest _; simpa using hrest
  | cons e P ih =>
    intro hP hrest h0
    have he := hP e (by simp)
    refine balOk_cons_shift h0 ?_
    rw [he.1, he.2]
    have := ih (fun x hx => hP x (by simp [hx])) hrest h0
    simpa using this

lemma balOk_step_close (u o : Bool) (hv : ¬(u = true ∧ o = true))
    (P rest : List (List Char)) (hP : ∀ e ∈ P, ulTagVal e = 0 ∧ olTagVal e = 0)
    (hrest : ∀ n, BalOk 0 0 (rest.take n)) :
    ∀ n, BalOk (boolInt u) (boolInt o) ((closeBoth u o ++ (P ++ rest)).take n) := by
  cases u <;> cases o
  · simpa [closeBoth, closeUl, closeOl] using
      balOk_zero_walk P hP hrest (by simp [boolInt])
  · have h1 : ∀ n, BalOk (0 + ulTagVal olCloseTag) (1 + olTagVal olCloseTag)
        ((P ++ rest).take n) := by
      have := balOk_zero_walk P hP hrest (by norm_num)
      simpa using this
    have h2 := balOk_cons_shift (by norm_num) h1
    simpa [closeBoth, closeUl, closeOl, boolInt] using h2
  · have h1 : ∀ n, BalOk (1 + ulTagVal ulCloseTag) (0 + olTagVal ulCloseTag)
        ((P ++ rest).take n) := by
      have := balOk_zero_walk P hP hrest (by norm_num)
      simpa using this
    have h2 := balOk_cons_shift (by norm_num) h1
    simpa [closeBoth, closeUl, closeOl, boolInt] using h2
  · exact absurd ⟨rfl, rfl⟩ hv

lemma balOk_step_ulItem (u o : Bool) (hv : ¬(u = true ∧ o = true))
    (li : List Char) (rest : List (List Char)) (hli : ulTagVal li = 0 ∧ olTagVal li = 0)
    (hrest : ∀ n, BalOk 1 0 (rest.take n)) :
    ∀ n, BalOk (boolInt u) (boolInt o)
      ((closeOl o ++ (openUl u ++ ([li] ++ rest))).take n) := by
  have hwalk : ∀ n, BalOk 1 0 (([li] ++ rest).take n) := by
    have := balOk_zero_walk [li] (by intro e he; rw [List.mem_singleton] at he; rw [he]; exact hli)
      hrest (by norm_num)
    simpa using this
  cases u <;> cases o
  · have h1 : ∀ n, BalOk (0 + ulTagVal ulOpenTag) (0 + olTagVal ulOpenTag)
        (([li] ++ rest).take n) := by simpa using hwalk
    have h2 := balOk_cons_shift (by norm_num) h1
    simpa [closeOl, openUl, boolInt] using h2
  · have h1 : ∀ n, BalOk (0 + ulTagVal ulOpenTag) (0 + olTagVal ulOpenTag)
        (([li] ++ rest).take n) := by simpa using hwalk
    have h2 := balOk_cons_shift (by norm_num) h1
    have h3 : ∀ n, BalOk (0 + ulTagVal olCloseTag) (1 + olTagVal olCloseTag)
        ((ulOpenTag :: ([li] ++ rest)).take n) := by simpa using h2
    have h4 := balOk_cons_shift (by norm_num) h3
    simpa [closeOl, openUl, boolInt] using h4
  · simpa [closeOl, openUl, boolInt] using hwalk
  · exact absurd ⟨rfl, rfl⟩ hv

lemma balOk_step_olItem (u o : Bool) (hv : ¬(u = true ∧ o = true))
    (li : List Char) (rest : List (List Char)) (hli : ulTagVal li = 0 ∧ olTagVal li = 0)
    (hrest : ∀ n, BalOk 0 1 (rest.take n)) :
    ∀ n, BalOk (boolInt u) (boolInt o)
      ((closeUl u ++ (openOl o ++ ([li] ++ rest))).take n) := by
  have hwalk : ∀ n, BalOk 0 1 (([li] ++ rest).take n) := by
    have := balOk_zero_walk [li] (by intro e he; rw [List.mem_singleton] at he; rw [he]; exact hli)
      hrest (by norm_num)
    simpa using this
  cases u <;> cases o
  · have h1 : ∀ n, BalOk (0 + ulTagVal olOpenTag) (0 + olTagVal olOpenTag)
        (([li] ++ rest).take n) := by simpa using hwalk
    have h2 := balOk_cons_shift (by norm_num) h1
    simpa [closeUl, openOl, boolInt] using h2
  · simpa [closeUl, openOl, boolInt] using hwalk
  · have h1 : ∀ n, BalOk (0 + ulTagVal olOpenTag) (0 + olTagVal olOpenTag)
        (([li] ++ rest).take n) := by simpa using hwalk
    have h2 := balOk_cons_shift (by norm_num) h1
    have h3 : ∀ n, BalOk (1 + ulTagVal ulCloseTag) (0 + olTagVal ulCloseTag)
        ((olOpenTag :: ([li] ++ rest)).take n) := by simpa using h2
    have h4 := balOk_cons_shift (by norm_num) h3
    simpa [closeUl, openOl, boolInt] using h4
  · exact absurd ⟨rfl, rfl⟩ hv

/-- Every prefix of the emitted lines keeps each list counter non-negative
and the number of simultaneously open lists at most one. -/
lemma render_prefix : ∀ ls (u o : Bool), ¬(u = true ∧ o = true) →
    ∀ n, BalOk (boolInt u) (boolInt o) ((renderLines ls u o).take n) := by
  intro ls
  induction ls with
  | nil =>
    intro u o hv n
    cases u <;> cases o
    · refine ⟨?_, ?_, ?_⟩ <;> simp [renderLines, closeBoth, closeUl, closeOl, boolInt] <;> omega
    · match n with
      | 0 => refine ⟨?_, ?_, ?_⟩ <;> simp [boolInt] <;> omega
      | n + 1 =>
        refine ⟨?_, ?_, ?_⟩ <;>
          simp [renderLines, closeBoth, closeUl, closeOl, boolInt] <;> omega
    · match n with
      | 0 => refine ⟨?_, ?_, ?_⟩ <;> simp [boolInt] <;> omega
      | n + 1 =>
        refine ⟨?_, ?_, ?_⟩ <;>
          simp [renderLines, closeBoth, closeUl, closeOl, boolInt] <;> omega
    · exact absurd ⟨rfl, rfl⟩ hv
  | cons line rest ih =>
    intro u o hv
    simp only [renderLines]
    split
    · exact balOk_step_close u o hv [] _ (by simp) (ih false false (by decide))
    · split
      · exact balOk_step_close u o hv [pyStr "<h1>" ++ (pyStrip line).drop 2 ++ pyStr "</h1>"] _
          (by intro e he; rw [List.mem_singleton] at he; subst he; simp)
          (ih false false (by decide))
      · split
        · exact balOk_step_close u o hv
            [pyStr "<h2>" ++ (pyStrip line).drop 3 ++ pyStr "</h2>"] _
            (by intro e he; rw [List.mem_singleton] at he; subst he; simp)
            (ih false false (by decide))
        · split
          · exact balOk_step_close u o hv [pyStr "<hr>"] _
              (by intro e he; rw [List.mem_singleton] at he; subst he; simp)
              (ih false false (by decide))
          · split
            · exact balOk_step_ulItem u o hv _ _ (by simp)
                (ih true false (by decide))
            · split
              · exact balOk_step_olItem u o hv _ _ (by simp)
                  (ih false true (by decide))
              · exact balOk_step_close u o hv
                  [pyStr "<p>" ++ boldSub (pyStrip line) ++ pyStr "</p>"] _
                  (by intro e he; rw [List.mem_singleton] at he; subst he; simp)
                  (ih false false (by decide))

lemma listBal_count (t : List (List Char)) :
    listBal ulTagVal t = (t.count ulOpenTag : Int) - t.count ulCloseTag ∧
    listBal olTagVal t = (t.count olOpenTag : Int) - t.count olCloseTag := by
  have d1 : ulOpenTag ≠ ulCloseTag := by decide
  have d2 : ulOpenTag ≠ olOpenTag := by decide
  have d3 : ulOpenTag ≠ olCloseTag := by decide
  have d4 : ulCloseTag ≠ olOpenTag := by decide
  have d5 : ulCloseTag ≠ olCloseTag := by decide
  have d6 : olOpenTag ≠ olCloseTag := by decide
  induction t with
  | nil => simp
  | cons e rest ih =>
    by_cases h1 : e = ulOpenTag
    · subst h1
      simp only [listBal_cons, List.count_cons, ih.1, ih.2, ulTagVal_ulOpen, olTagVal_ulOpen,
        beq_iff_eq]
      simp [d1, d2, d3, Ne.symm d1, Ne.symm d2, Ne.symm d3]
      omega
    · by_cases h2 : e = ulCloseTag
      · subst h2
        simp only [listBal_cons, List.count_cons, ih.1, ih.2, ulTagVal_ulClose, olTagVal_ulClose,
          beq_iff_eq]
        simp [d1, d4, d5, Ne.symm d1, Ne.symm d4, Ne.symm d5]
        omega
      · by_cases h3 : e = olOpenTag
        · subst h3
          simp only [listBal_cons, List.count_cons, ih.1, ih.2, ulTagVal_olOpen, olTagVal_olOpen,
            beq_iff_eq]
          simp [d2, d4, d6, Ne.symm d2, Ne.symm d4, Ne.symm d6]
          omega
        · by_cases h4 : e = olCloseTag
          · subst h4
            simp only [listBal_cons, List.count_cons, ih.1, ih.2, ulTagVal_olClose,
              olTagVal_olClose, beq_iff_eq]
            simp [d3, d5, d6, Ne.symm d3, Ne.symm d5, Ne.symm d6]
            omega
          · have hz1 : ulTagVal e = 0 := by unfold ulTagVal; rw [if_neg h1, if_neg h2]
            have hz2 : olTagVal e = 0 := by unfold olTagVal; rw [if_neg h3, if_neg h4]
            rw [listBal_cons, listBal_cons, hz1, hz2, ih.1, ih.2]
            simp only [List.count_cons, beq_iff_eq, if_neg h1, if_neg h2, if_neg h3,
              if_neg h4]
            omega

/-- C2: in the rendered body, the `<ul>`/`</ul>` and `<ol>`/`</ol>` tag
lines balance: totals agree, no prefix has more closes than opens (so every
open tag is matched by a later close), and in every prefix the number of
currently open lists is at most one. -/
theorem c2_list_tags_balanced (md : List Char) :
    ((bodyLines md).count ulOpenTag = (bodyLines md).count ulCloseTag ∧
     (bodyLines md).count olOpenTag = (bodyLines md).count olCloseTag) ∧
    ∀ n,
      (((bodyLines md).take n).count ulCloseTag ≤ ((bodyLines md).take n).count ulOpenTag ∧
       ((bodyLines md).take n).count olCloseTag ≤ ((bodyLines md).take n).count olOpenTag) ∧
      ((bodyLines md).take n).count ulOpenTag + ((bodyLines md).take n).count olOpenTag ≤
        ((bodyLines md).take n).count ulCloseTag + ((bodyLines md).take n).count olCloseTag
          + 1 := by
  have e1 : listBal ulTagVal (bodyLines md) = 0 := by
    have h := (render_total (splitLines md) false false).1
    simpa [bodyLines, boolInt] using h
  have e2 : listBal olTagVal (bodyLines md) = 0 := by
    have h := (render_total (splitLines md) false false).2
    simpa [bodyLines, boolInt] using h
  constructor
  · have h1 := (listBal_count (bodyLines md)).1
    have h2 := (listBal_count (bodyLines md)).2
    rw [e1] at h1
    rw [e2] at h2
    omega
  · intro n
    have hp := render_prefix (splitLines md) false false (by decide) n
    unfold BalOk at hp
    have hb : (renderLines (splitLines md) false false).take n = (bodyLines md).take n := rfl
    rw [hb] at hp
    obtain ⟨hpu, hpo, hps⟩ := hp
    have hc1 := (listBal_count ((bodyLines md).take n)).1
    have hc2 := (listBal_count ((bodyLines md).take n)).2
    have hbi : boolInt false = 0 := rfl
    rw [hc1, hbi] at hpu
    rw [hc2, hbi] at hpo
    rw [hc1, hc2, hbi] at hps
    omega

/-! ## Claim C6 -/

/-- C6: rendering `"- a\n- b\n\n1. x\n2. y"` produces exactly one
`<ul>` block with two items, closed before exactly one `<ol>` block with
two items, and the full document embeds exactly these body lines. -/
theorem c6_round_trip :
    bodyLines (pyStr "- a\n- b\n\n1. x\n2. y") =
      [pyStr "<ul>", pyStr "<li>a</li>", pyStr "<li>b</li>", pyStr "</ul>",
       pyStr "<ol>", pyStr "<li>x</li>", pyStr "<li>y</li>", pyStr "</ol>"] ∧
    create_recipe_card_html (pyStr "- a\n- b\n\n1. x\n2. y") =
      htmlBefore ++ (List.intercalate (pyStr "\n")
        [pyStr "<ul>", pyStr "<li>a</li>", pyStr "<li>b</li>", pyStr "</ul>",
         pyStr "<ol>", pyStr "<li>x</li>", pyStr "<li>y</li>", pyStr "</ol>"] ++ htmlAfter) := by
  have h : bodyLines (pyStr "- a\n- b\n\n1. x\n2. y") =
      [pyStr "<ul>", pyStr "<li>a</li>", pyStr "<li>b</li>", pyStr "</ul>",
       pyStr "<ol>", pyStr "<li>x</li>", pyStr "<li>y</li>", pyStr "</ol>"] := by decide
  refine ⟨h, ?_⟩
  unfold create_recipe_card_html
  rw [h]

lemma occursCount_nil_of_ne {pat : List Char} (h : pat ≠ []) : occursCount pat [] = 0 := by
  cases pat with
  | nil => exact absurd rfl h
  | cons p ps => rfl

lemma isPrefixOf_append_of_isPrefixOf {pat a : List Char} (b : List Char)
    (h : pat.isPrefixOf a = true) : pat.isPrefixOf (a ++ b) = true := by
  rw [List.isPrefixOf_iff_prefix] at h ⊢
  exact h.trans (List.prefix_append a b)

lemma occursCount_cons (pat : List Char) (c : Char) (rest : List Char) :
    occursCount pat (c :: rest) =
      (if pat.isPrefixOf (c :: rest) then 1 else 0) + occursCount pat rest := rfl

lemma occursCount_append_ge (pat : List Char) (hne : pat ≠ []) :
    ∀ a b : List Char, occursCount pat a + occursCount pat b ≤ occursCount pat (a ++ b) := by
  intro a b
  induction a with
  | nil => rw [occursCount_nil_of_ne hne]; simp
  | cons c rest ih =>
    rw [List.cons_append, occursCount_cons, occursCount_cons]
    have hmono : (if pat.isPrefixOf (c :: rest) then 1 else 0) ≤
        (if pat.isPrefixOf (c :: (rest ++ b)) then 1 else 0) := by
      by_cases hp : pat.isPrefixOf (c :: rest) = true
      · have h2 : pat.isPrefixOf ((c :: rest) ++ b) = true :=
          isPrefixOf_append_of_isPrefixOf b hp
        rw [List.cons_append] at h2
        simp [hp, h2]
      · simp [hp]
    omega

lemma occursCount_pos_of_isPrefixOf {pat s : List Char} (hne : pat ≠ [])
    (h : pat.isPrefixOf s = true) : 1 ≤ occursCount pat s := by
  cases s with
  | nil =>
    cases pat with
    | nil => exact absurd rfl hne
    | cons p ps => simp [List.isPrefixOf] at h
  | cons c rest =>
    rw [occursCount_cons, if_pos h]
    omega

lemma occursCount_embedded_pos (pat x y : List Char) (hne : pat ≠ []) :
    1 ≤ occursCount pat (x ++ (pat ++ y)) := by
  have hpre : pat.isPrefixOf (pat ++ y) = true := by
    rw [List.isPrefixOf_iff_prefix]
    exact List.prefix_append pat y
  have h1 := occursCount_pos_of_isPrefixOf hne hpre
  have h2 := occursCount_append_ge pat hne x (pat ++ y)
  omega

/-- C3 counterexample: when an input line itself contains the print-button
markup, the output contains it (at least) three times, not exactly two. -/
theorem c3_counterexample :
    occursCount buttonMarkup (create_recipe_card_html buttonMarkup) ≠ 2 := by
  have hne : buttonMarkup ≠ [] := by decide
  have hbody : bodyLines buttonMarkup = [pyStr "<p>" ++ (buttonMarkup ++ pyStr "</p>")] := by
    decide
  have hfull : create_recipe_card_html buttonMarkup =
      htmlBefore ++ ((pyStr "<p>" ++ (buttonMarkup ++ pyStr "</p>")) ++ htmlAfter) := by
    unfold create_recipe_card_html
    rw [hbody]
    simp [List.intercalate]
  have h1 : 1 ≤ occursCount buttonMarkup htmlBefore :=
    occursCount_embedded_pos buttonMarkup htmlPreA htmlPreB hne
  have h2 : 1 ≤ occursCount buttonMarkup (pyStr "<p>" ++ (buttonMarkup ++ pyStr "</p>")) :=
    occursCount_embedded_pos buttonMarkup (pyStr "<p>") (pyStr "</p>") hne
  have h3 : 1 ≤ occursCount buttonMarkup htmlAfter :=
    occursCount_embedded_pos buttonMarkup htmlPostA htmlPostB hne
  have g1 := occursCount_append_ge buttonMarkup hne
    (pyStr "<p>" ++ (buttonMarkup ++ pyStr "</p>")) htmlAfter
  have g2 := occursCount_append_ge buttonMarkup hne htmlBefore
    ((pyStr "<p>" ++ (buttonMarkup ++ pyStr "</p>")) ++ htmlAfter)
  rw [hfull]
  omega

/-- C3 (amended): for every input, the rendered document contains at least
two occurrences of the print-trigger button markup (one from each template
button); inputs that themselves contain the markup can push the count
higher. -/
theorem c3_amended (md : List Char) :
    2 ≤ occursCount buttonMarkup (create_recipe_card_html md) := by
  have hne : buttonMarkup ≠ [] := by decide
  have h1 : 1 ≤ occursCount buttonMarkup htmlBefore :=
    occursCount_embedded_pos buttonMarkup htmlPreA htmlPreB hne
  have h3 : 1 ≤ occursCount buttonMarkup htmlAfter :=
    occursCount_embedded_pos buttonMarkup htmlPostA htmlPostB hne
  have g1 := occursCount_append_ge buttonMarkup hne
    (List.intercalate (pyStr "\n") (bodyLines md)) htmlAfter
  have g2 := occursCount_append_ge buttonMarkup hne htmlBefore
    (List.intercalate (pyStr "\n") (bodyLines md) ++ htmlAfter)
  unfold create_recipe_card_html
  omega

lemma lineElement_mem : ∀ ls (u o : Bool) (l : List Char), l ∈ ls → pyStrip l ≠ [] →
    lineElement (pyStrip l) ∈ renderLines ls u o := by
  intro ls
  induction ls with
  | nil => intro u o l h _; simp at h
  | cons line rest ih =>
    intro u o l hmem hne
    rcases List.mem_cons.mp hmem with rfl | hmem'
    · simp only [renderLines]
      split
    

      · rename_i hblank
        exact absurd (List.isEmpty_iff.mp hblank) hne
      · split
        · rename_i h1
          rw [lineElement, if_pos h1]
          exact List.mem_append_right _ (List.mem_append_left _ (by simp))
        · split
          · rename_i h1 h2
            rw [lineElement, if_neg (by simpa using h1), if_pos h2]
            exact List.mem_append_right _ (List.mem_append_left _ (by simp))
          · split
            · rename_i h1 h2 h3
              rw [lineElement, if_neg (by simpa using h1), if_neg (by simpa using h2),
                if_pos h3]
              exact List.mem_append_right _ (List.mem_append_left _ (by simp))
            · split
              · rename_i h1 h2 h3 h4
                rw [lineElement, if_neg (by simpa using h1), if_neg (by simpa using h2),
                  if_neg h3, if_pos h4]
                exact List.mem_append_right _
                  (List.mem_append_right _ (List.mem_append_left _ (by simp)))
              · split
                · rename_i h1 h2 h3 h4 h5
                  rw [lineElement, if_neg (by simpa using h1), if_neg (by simpa using h2),
                    if_neg h3, if_neg (by simpa using h4), if_pos h5]
                  exact List.mem_append_right _
                    (List.mem_append_right _ (List.mem_append_left _ (by simp)))
                · rename_i h1 h2 h3 h4 h5
                  rw [lineElement, if_neg (by simpa using h1), if_neg (by simpa using h2),
                    if_neg h3, if_neg (by simpa using h4), if_neg (by simpa using h5)]
                  exact List.mem_append_right _ (List.mem_append_left _ (by simp))
    · simp only [renderLines]
      split
      · exact List.mem_append_right _ (ih false false l hmem' hne)
      · split
        · exact List.mem_append_right _
            (List.mem_append_right _ (ih false false l hmem' hne))
        · split
          · exact List.mem_append_right _
              (List.mem_append_right _ (ih false false l hmem' hne))
          · split
            · exact List.mem_append_right _
                (List.mem_append_right _ (ih false false l hmem' hne))
            · split
              · exact List.mem_append_right _ (List.mem_append_right _
                  (List.mem_append_right _ (ih true false l hmem' hne)))
              · split
                · exact List.mem_append_right _ (List.mem_append_right _
                    (List.mem_append_right _ (ih false true l hmem' hne)))
                · exact List.mem_append_right _
                    (List.mem_append_right _ (ih false false l hmem' hne))

lemma intercalate_cons_two (sep a b : List Char) (L : List (List Char)) :
    List.intercalate sep (a :: b :: L) = a ++ (sep ++ List.intercalate sep (b :: L)) := by
  simp [List.intercalate]

lemma mem_intercalate_isInfix {x : List Char} (sep : List Char) :
    ∀ L : List (List Char), x ∈ L → x <:+: List.intercalate sep L := by
  intro L
  induction L with
  | nil => intro h; simp at h
  | cons a L ih =>
    intro h
    rcases List.mem_cons.mp h with rfl | h'
    · cases L with
      | nil =>
        have hx : List.intercalate sep [x] = x := by simp [List.intercalate]
        rw [hx]
      | cons b L' =>
        rw [intercalate_cons_two]
        exact ⟨[], sep ++ List.intercalate sep (b :: L'), by simp⟩
    · have hL : L ≠ [] := by rintro rfl; simp at h'
      obtain ⟨b, L', rfl⟩ := List.exists_cons_of_ne_nil hL
      rw [intercalate_cons_two]
      exact (ih h').trans ⟨a ++ sep, [], by simp⟩

lemma findStars_spec : ∀ l p q : List Char, findStars l = some (p, q) →
    l = p ++ '*' :: '*' :: q := by
  intro l
  induction l with
  | nil => intro p q h; simp [findStars] at h
  | cons a rest ih =>
    intro p q h
    cases rest with
    | nil => simp [findStars] at h
    | cons b r2 =>
      rw [findStars] at h
      split at h
      · rename_i hab
        obtain ⟨rfl, rfl⟩ := hab
        obtain ⟨rfl, rfl⟩ : ([] : List Char) = p ∧ r2 = q := by
          have := Option.some.inj h
          exact ⟨congrArg Prod.fst this, congrArg Prod.snd this⟩
        rfl
      · rw [Option.map_eq_some'] at h
        obtain ⟨pq, hpq, heq⟩ := h
        have hspec := ih pq.1 pq.2 (by rw [hpq])
        have h1 : a :: pq.1 = p := congrArg Prod.fst heq
        have h2 : pq.2 = q := congrArg Prod.snd heq
        rw [← h1, ← h2, List.cons_append, ← hspec]

lemma splitClose_spec (rest mid q : List Char) (h : splitClose rest = some (mid, q)) :
    rest = mid ++ '*' :: '*' :: q ∧ mid ≠ [] := by
  cases rest with
  | nil => simp [splitClose] at h
  | cons a tail =>
    rw [splitClose, Option.map_eq_some'] at h
    obtain ⟨pq, hpq, heq⟩ := h
    have h1 : a :: pq.1 = mid := congrArg Prod.fst heq
    have h2 : pq.2 = q := congrArg Prod.snd heq
    have hspec := findStars_spec tail pq.1 pq.2 hpq
    constructor
    · rw [← h1, ← h2, List.cons_append, ← hspec]
    · rw [← h1]; simp

lemma count_le_boldSubF {c : Char} (hc : c ≠ '*') :
    ∀ fuel l, l.count c ≤ (boldSubF fuel l).count c := by
  intro fuel
  induction fuel with
  | zero => intro l; simp [boldSubF]
  | succ fuel ih =>
    intro l
    match l with
    | [] => simp [boldSubF]
    | [a] =>
      show List.count c [a] ≤ List.count c (a :: boldSubF fuel [])
      simp only [List.count_cons, List.count_nil]
      omega
    | a :: b :: rest =>
      rw [boldSubF]
      split
      · rename_i hab
        obtain ⟨rfl, rfl⟩ := hab
        cases hsc : splitClose rest with
        | none =>
          simp only [hsc]
          rw [List.count_cons_of_ne hc, List.count_cons_of_ne hc, List.count_cons_of_ne hc]
          have := ih ('*' :: rest)
          rw [List.count_cons_of_ne hc] at this
          exact this
        | some pq =>
          obtain ⟨mid, rest'⟩ := pq
          simp only [hsc]
          obtain ⟨hrest, -⟩ := splitClose_spec rest mid rest' hsc
          rw [List.count_cons_of_ne hc, List.count_cons_of_ne hc, hrest]
          rw [List.count_append, List.count_append, List.count_append, List.count_append]
          rw [List.count_cons_of_ne hc, List.count_cons_of_ne hc]
          have := ih rest'
          omega
      · simp only [List.count_cons]
        have := ih (b :: rest)
        simp only [List.count_cons] at this
        omega

lemma count_le_boldSub {c : Char} (hc : c ≠ '*') (l : List Char) :
    l.count c ≤ (boldSub l).count c :=
  count_le_boldSubF hc l.length l

lemma count_dropWhile_of_not {p : Char → Bool} {c : Char} (hc : p c = false)
    (l : List Char) : (l.dropWhile p).count c = l.count c := by
  conv_rhs => rw [← List.takeWhile_append_dropWhile (p := p) (l := l)]
  rw [List.count_append]
  have hz : (l.takeWhile p).count c = 0 := by
    rw [List.count_eq_zero]
    intro hmem
    have := List.mem_takeWhile_imp hmem
    rw [hc] at this
    cases this
  omega

lemma dropWhile_eq_drop_takeWhile (p : Char → Bool) :
    ∀ l : List Char, l.dropWhile p = l.drop (l.takeWhile p).length := by
  intro l
  induction l with
  | nil => rfl
  | cons a rest ih =>
    by_cases h : p a = true
    · simp [List.dropWhile_cons, List.takeWhile_cons, h, ih]
    · simp [List.dropWhile_cons, List.takeWhile_cons, h]

lemma count_stripNumbering_ge {s : List Char} {c : Char} (hdig : c.isDigit = false)
    (hdot : c ≠ '.') (hsp : isPySpace c = false) :
    s.count c ≤ (stripNumbering s).count c := by
  unfold stripNumbering
  split
  · rename_i hnum
    unfold numberedItem at hnum
    rw [Bool.and_eq_true] at hnum
    obtain ⟨-, hmatch⟩ := hnum
    cases hY : s.drop (s.takeWhile Char.isDigit).length with
    | nil => rw [hY] at hmatch; simp at hmatch
    | cons e tail =>
      cases tail with
      | nil => rw [hY] at hmatch; simp at hmatch
      | cons d tail2 =>
        rw [hY] at hmatch
        have hm : (decide (e = '.') && isPySpace d) = true := hmatch
        rw [Bool.and_eq_true] at hm
        have he : e = '.' := of_decide_eq_true hm.1
        subst he
        have hY2 : s.dropWhile Char.isDigit = '.' :: d :: tail2 := by
          rw [dropWhile_eq_drop_takeWhile]; exact hY
        rw [count_dropWhile_of_not hsp, hY2]
        conv_lhs => rw [← List.takeWhile_append_dropWhile (p := Char.isDigit) (l := s)]
        rw [List.count_append, hY2]
        have h0 : (s.takeWhile Char.isDigit).count c = 0 := by
          rw [List.count_eq_zero]
          intro hmem
          have hh := List.mem_takeWhile_imp hmem
          rw [hdig] at hh
          cases hh
        rw [List.count_cons_of_ne hdot]
        simp only [List.drop_succ_cons, List.drop_zero]
        omega
  · exact le_rfl

lemma count_le_lineElement (s : List Char) (c : Char)
    (hc : c = '<' ∨ c = '>' ∨ c = '&') :
    s.count c ≤ (lineElement s).count c := by
  have hcs : c ≠ '*' := by rcases hc with rfl | rfl | rfl <;> decide
  unfold lineElement
  split
  · rename_i h1
    rw [List.isPrefixOf_iff_prefix] at h1
    obtain ⟨t, rfl⟩ := h1
    have hlen2 : (pyStr "# ").length = 2 := rfl
    have hdrop : (pyStr "# " ++ t).drop 2 = t := by
      rw [← hlen2]; exact List.drop_left _ _
    rw [hdrop, List.count_append, List.count_append, List.count_append]
    have hpre : (pyStr "# ").count c = 0 := by rcases hc with rfl | rfl | rfl <;> decide
    omega
  · split
    · rename_i h1
      rw [List.isPrefixOf_iff_prefix] at h1
      obtain ⟨t, rfl⟩ := h1
      have hlen3 : (pyStr "## ").length = 3 := rfl
      have hdrop : (pyStr "## " ++ t).drop 3 = t := by
        rw [← hlen3]; exact List.drop_left _ _
      rw [hdrop, List.count_append, List.count_append, List.count_append]
      have hpre : (pyStr "## ").count c = 0 := by rcases hc with rfl | rfl | rfl <;> decide
      omega
    · split
      · rename_i h2
        rw [h2]
        rcases hc with rfl | rfl | rfl <;> decide
      · split
        · rename_i h3
          rw [List.isPrefixOf_iff_prefix] at h3
          obtain ⟨t, rfl⟩ := h3
          have hlen2 : (pyStr "- ").length = 2 := rfl
          have hdrop : (pyStr "- " ++ t).drop 2 = t := by
            rw [← hlen2]; exact List.drop_left _ _
          rw [hdrop, List.count_append, List.count_append, List.count_append]
          have hpre : (pyStr "- ").count c = 0 := by
            rcases hc with rfl | rfl | rfl <;> decide
          have hb := count_le_boldSub hcs t
          omega
        · split
          · rw [List.count_append, List.count_append]
            have hnum : s.count c ≤ (stripNumbering s).count c :=
              count_stripNumbering_ge (by rcases hc with rfl | rfl | rfl <;> decide)
                (by rcases hc with rfl | rfl | rfl <;> decide)
                (by rcases hc with rfl | rfl | rfl <;> decide)
            have hb := count_le_boldSub hcs (stripNumbering s)
            omega
          · rw [List.count_append, List.count_append]
            have hb := count_le_boldSub hcs s
            omega

/-- C9: the renderer performs no HTML escaping: every non-blank line's
emitted block element appears verbatim inside the output document, and for
each of `<`, `>`, `&` the element contains at least as many occurrences as
the stripped input line — none is replaced by an entity. -/
theorem c9_no_html_escaping (md l : List Char) (hmem : l ∈ splitLines md)
    (hne : pyStrip l ≠ []) :
    lineElement (pyStrip l) <:+: create_recipe_card_html md ∧
    ∀ c, c = '<' ∨ c = '>' ∨ c = '&' →
      (pyStrip l).count c ≤ (lineElement (pyStrip l)).count c := by
  constructor
  · have hm := lineElement_mem (splitLines md) false false l hmem hne
    have hinf : lineElement (pyStrip l) <:+:
        List.intercalate (pyStr "\n") (bodyLines md) :=
      mem_intercalate_isInfix _ _ hm
    unfold create_recipe_card_html
    exact hinf.trans ⟨htmlBefore, htmlAfter, List.append_assoc _ _ _⟩
  · intro c hc
    exact count_le_lineElement (pyStrip l) c hc

/-- Witness for `c9_no_html_escaping` on the line `"<script>x</script>"`. -/
theorem c9_witness :
    lineElement (pyStrip (pyStr "<script>x</script>")) <:+:
      create_recipe_card_html (pyStr "<script>x</script>") ∧
    (pyStrip (pyStr "<script>x</script>")).count '<' ≤
      (lineElement (pyStrip (pyStr "<script>x</script>"))).count '<' :=
  ⟨(c9_no_html_escaping (pyStr "<script>x</script>") (pyStr "<script>x</script>")
      (by decide) (by decide)).1,
   (c9_no_html_escaping (pyStr "<script>x</script>") (pyStr "<script>x</script>")
      (by decide) (by decide)).2 '<' (Or.inl rfl)⟩

/-! ## Claims about the display-name cleaner (C8, C10) -/

lemma mem_of_head? {α : Type} {l : List α} {a : α} (h : l.head? = some a) : a ∈ l := by
  cases l with
  | nil => simp at h
  | cons b t =>
    rw [List.head?_cons] at h
    rw [Option.some.inj h]
    simp

/-- Every result of the matcher consumes a prefix: the remaining input is a
suffix of the input, and any captured group consists of input characters. -/
lemma mmatch_spec : ∀ (r : RE) (cs : List Char) (pr : List Char × Option (List Char)),
    pr ∈ mmatch r cs →
    pr.1 <:+ cs ∧ ∀ cap, pr.2 = some cap → ∀ x ∈ cap, x ∈ cs := by
  intro r
  induction r with
  | eps =>
    intro cs pr h
    rw [mmatch, List.mem_singleton] at h
    subst h
    exact ⟨List.suffix_refl _, fun cap hcap => by simp at hcap⟩
  | cls p =>
    intro cs pr h
    cases cs with
    | nil => simp [mmatch] at h
    | cons c rest =>
      rw [mmatch] at h
      split at h
      · rw [List.mem_singleton] at h
        subst h
        exact ⟨List.suffix_cons c rest, fun cap hcap => by simp at hcap⟩
      · simp at h
  | lit sL =>
    intro cs pr h
    rw [mmatch] at h
    split at h
    · rw [List.mem_singleton] at h
      subst h
      exact ⟨List.drop_suffix _ _, fun cap hcap => by simp at hcap⟩
    · simp at h
  | seq a b iha ihb =>
    intro cs pr h
    rw [mmatch, List.mem_flatMap] at h
    obtain ⟨pa, hpa, hmem2⟩ := h
    rw [List.mem_map] at hmem2
    obtain ⟨qb, hqb, rfl⟩ := hmem2
    have Ha := iha cs pa hpa
    have Hb := ihb pa.1 qb hqb
    refine ⟨Hb.1.trans Ha.1, ?_⟩
    intro cap hcap x hx
    simp only at hcap
    cases hpa2 : pa.2 with
    | some c2 =>
      rw [hpa2, Option.some_orElse] at hcap
      rw [← Option.some.inj hcap] at hx
      exact Ha.2 c2 hpa2 x hx
    | none =>
      rw [hpa2, Option.none_orElse] at hcap
      exact Ha.1.subset (Hb.2 cap hcap x hx)
  | alt a b iha ihb =>
    intro cs pr h
    rw [mmatch, List.mem_append] at h
    rcases h with h | h
    · exact iha cs pr h
    · exact ihb cs pr h
  | opt a iha =>
    intro cs pr h
    rw [mmatch, List.mem_append] at h
    rcases h with h | h
    · exact iha cs pr h
    · rw [List.mem_singleton] at h
      subst h
      exact ⟨List.suffix_refl _, fun cap hcap => by simp at hcap⟩
  | plusGreedy p =>
    intro cs pr h
    rw [mmatch, List.mem_reverse, List.mem_map] at h
    obtain ⟨k, -, rfl⟩ := h
    exact ⟨List.drop_suffix _ _, fun cap hcap => by simp at hcap⟩
  | plusLazy p =>
    intro cs pr h
    rw [mmatch, List.mem_map] at h
    obtain ⟨k, -, rfl⟩ := h
    exact ⟨List.drop_suffix _ _, fun cap hcap => by simp at hcap⟩
  | grp a iha =>
    intro cs pr h
    rw [mmatch, List.mem_map] at h
    obtain ⟨pa, hpa, rfl⟩ := h
    have Ha := iha cs pa hpa
    refine ⟨Ha.1, ?_⟩
    intro cap hcap x hx
    simp only at hcap
    rw [← Option.some.inj hcap] at hx
    exact mem_of_mem_take hx

/-- The group returned by `re.search` consists of input characters. -/
lemma reSearch_spec (r : RE) : ∀ (cs cap : List Char), reSearch r cs = some cap →
    ∀ x ∈ cap, x ∈ cs := by
  intro cs
  induction cs with
  | nil =>
    intro cap h x hx
    rw [reSearch] at h
    cases hh : (mmatch r []).head? with
    | some pr =>
      rw [hh] at h
      change some (pr.2.getD []) = some cap at h
      have hpr := mmatch_spec r [] pr (mem_of_head? hh)
      cases hp2 : pr.2 with
      | some c2 =>
        rw [hp2] at h
        simp only [Option.getD_some] at h
        rw [← Option.some.inj h] at hx
        exact hpr.2 c2 hp2 x hx
      | none =>
        rw [hp2] at h
        simp only [Option.getD_none] at h
        rw [← Option.some.inj h] at hx
        simp at hx
    | none => rw [hh] at h; simp at h
  | cons c t ih =>
    intro cap h x hx
    rw [reSearch] at h
    cases hh : (mmatch r (c :: t)).head? with
    | some pr =>
      rw [hh] at h
      change some (pr.2.getD []) = some cap at h
      have hpr := mmatch_spec r (c :: t) pr (mem_of_head? hh)
      cases hp2 : pr.2 with
      | some c2 =>
        rw [hp2] at h
        simp only [Option.getD_some] at h
        rw [← Option.some.inj h] at hx
        exact hpr.2 c2 hp2 x hx
      | none =>
        rw [hp2] at h
        simp only [Option.getD_none] at h
        rw [← Option.some.inj h] at hx
        simp at hx
    | none =>
      rw [hh] at h
      exact List.mem_cons_of_mem c (ih cap h x hx)

lemma mem_tryPattern {r : RE} {clean e : List Char} (h : tryPattern r clean = some e) :
    ∀ x ∈ e, x ∈ clean := by
  intro x hx
  rw [tryPattern] at h
  cases hs : reSearch r clean with
  | none => rw [hs] at h; simp at h
  | some cap =>
    rw [hs] at h
    change (if 3 ≤ (stripRight _ (pyStrip cap)).length
      then some (stripRight _ (pyStrip cap)) else none) = some e at h
    split at h
    · rw [← Option.some.inj h] at hx
      exact reSearch_spec r clean cap hs x
        (mem_of_mem_pyStrip (mem_of_mem_stripRight hx))
    · simp at h

lemma mem_aiExtract {s : List Char} {x : Char} (h : x ∈ aiExtractStep s) : x ∈ s := by
  rw [aiExtractStep] at h
  split at h
  · cases h1 : tryPattern ai_pattern1 s with
    | some e =>
      rw [h1] at h
      exact mem_tryPattern h1 x h
    | none =>
      rw [h1] at h
      cases h2 : tryPattern ai_pattern2 s with
      | some e =>
        rw [h2] at h
        exact mem_tryPattern h2 x h
      | none =>
        rw [h2] at h
        exact h
  · exact h

lemma mem_cleanBase {name : List Char} {x : Char} (h : x ∈ cleanBase name) :
    x ≠ '#' ∧ x ≠ '*' := by
  rw [cleanBase] at h
  have h2 := mem_of_mem_pyStrip (mem_of_mem_stripRight (mem_of_mem_pyStrip h))
  rw [List.mem_filter] at h2
  obtain ⟨h3, hstar⟩ := h2
  rw [List.mem_filter] at h3
  obtain ⟨-, hhash⟩ := h3
  exact ⟨by simpa using hhash, by simpa using hstar⟩

lemma mem_rsplitSpaceFst {l : List Char} {x : Char} (h : x ∈ rsplitSpaceFst l) : x ∈ l := by
  rw [rsplitSpaceFst] at h
  split at h
  · rw [List.mem_reverse] at h
    have h2 := List.Sublist.mem h (List.drop_sublist _ _)
    have h3 := List.Sublist.mem h2 (List.dropWhile_sublist _)
    exact List.mem_reverse.mp h3
  · exact h

lemma untitled_no_markers {x : Char} (h : x ∈ pyStr "Untitled Recipe") :
    x ≠ '#' ∧ x ≠ '*' := by
  have hu : ('#' ∉ pyStr "Untitled Recipe") ∧ ('*' ∉ pyStr "Untitled Recipe") := by decide
  exact ⟨fun hh => hu.1 (hh ▸ h), fun hh => hu.2 (hh ▸ h)⟩

lemma ellipsis_no_markers {x : Char} (h : x ∈ pyStr "...") : x ≠ '#' ∧ x ≠ '*' := by
  have hu : ('#' ∉ pyStr "...") ∧ ('*' ∉ pyStr "...") := by decide
  exact ⟨fun hh => hu.1 (hh ▸ h), fun hh => hu.2 (hh ▸ h)⟩

lemma clean_chars_no_markers {name : List Char} {x : Char}
    (h : x ∈ aiExtractStep (cleanBase name)) : x ≠ '#' ∧ x ≠ '*' :=
  mem_cleanBase (mem_aiExtract h)

/-- C10: the display-name cleaner never returns a string containing `#` or
`*`: every branch returns either the fallback literal or characters of the
globally `#`/`*`-stripped base string, possibly with the ellipsis marker. -/
theorem c10_no_markdown_markers (name : List Char) (max_len : Nat) :
    '#' ∉ clean_display_name name max_len ∧ '*' ∉ clean_display_name name max_len := by
  have key : ∀ x ∈ clean_display_name name max_len, x ≠ '#' ∧ x ≠ '*' := by
    intro x hx
    have hguard : ∀ y : List Char, x ∈ (if y.isEmpty then pyStr "Untitled Recipe" else y) →
        (∀ z ∈ y, z ≠ '#' ∧ z ≠ '*') → x ≠ '#' ∧ x ≠ '*' := by
      intro y hy hz
      by_cases he : y.isEmpty = true
      · rw [if_pos he] at hy
        exact untitled_no_markers hy
      · rw [if_neg he] at hy
        exact hz x hy
    simp only [clean_display_name] at hx
    split at hx
    · exact untitled_no_markers hx
    · split at hx
      · exact untitled_no_markers hx
      · refine hguard _ hx ?_
        intro z hz
        by_cases ht : max_len < (aiExtractStep (cleanBase name)).length
        · rw [if_pos ht] at hz
          rcases List.mem_append.mp hz with hl | hr
          · exact clean_chars_no_markers (mem_of_mem_take (mem_rsplitSpaceFst hl))
          · exact ellipsis_no_markers hr
        · rw [if_neg ht] at hz
          exact clean_chars_no_markers hz
  exact ⟨fun h => (key '#' h).1 rfl, fun h => (key '*' h).2 rfl⟩

/-- C8 counterexample: a cleaned form that is one of the generic headers is
replaced by the fallback literal before the truncation step ever runs, so
the claimed truncation result is not returned. -/
theorem c8_counterexample :
    clean_display_name (pyStr "Recipe") 4 = pyStr "Untitled Recipe" ∧
    4 < (cleanBase (pyStr "Recipe")).length ∧
    aiExtractStep (cleanBase (pyStr "Recipe")) = cleanBase (pyStr "Recipe") ∧
    pyStr "Untitled Recipe" ≠ specEllipsisTruncate (cleanBase (pyStr "Recipe")) 4 := by
  decide

/-- C8 (amended): whenever the cleaned (and possibly re-extracted) form is
not one of the generic headers and exceeds `max_len` characters, the
cleaner returns that form truncated to `max_len`, backed off to the last
space, with the ellipsis marker appended. -/
theorem c8_truncation_with_ellipsis (name : List Char) (max_len : Nat)
    (hgen : pyLower (aiExtractStep (cleanBase name)) ∉ genericHeaders)
    (hlen : max_len < (aiExtractStep (cleanBase name)).length) :
    clean_display_name name max_len =
      rsplitSpaceFst ((aiExtractStep (cleanBase name)).take max_len) ++ pyStr "..." := by
  simp only [clean_display_name]
  split
  · rename_i hemp
    have hn : name = [] := by
      cases name with
      | nil => rfl
      | cons a t => simp at hemp
    subst hn
    have hz : aiExtractStep (cleanBase []) = [] := by decide
    rw [hz] at hlen
    simp at hlen
  · rw [if_neg ?_]
    rw [List.isEmpty_iff]
    intro hcontra
    have := List.append_eq_nil.mp hcontra
    simp [pyStr] at this

/-- Witness for `c8_truncation_with_ellipsis` at `"x"*100` with
`max_len = 55`: the result is `"x"*55 ++ "..."`, of length 58, ending in
the ellipsis marker. -/
theorem c8_witness :
    (pyLower (aiExtractStep (cleanBase (List.replicate 100 'x'))) ∉ genericHeaders) ∧
    (55 < (aiExtractStep (cleanBase (List.replicate 100 'x'))).length) ∧
    clean_display_name (List.replicate 100 'x') 55 = List.replicate 55 'x' ++ pyStr "..." ∧
    (clean_display_name (List.replicate 100 'x') 55).length = 58 := by
  refine ⟨by decide, by decide, ?_, ?_⟩
  · have h := c8_truncation_with_ellipsis (List.replicate 100 'x') 55 (by decide) (by decide)
    rw [h]
    decide
  · have h := c8_truncation_with_ellipsis (List.replicate 100 'x') 55 (by decide) (by decide)
    rw [h]
    decide
